import Mathlib

/-!
Verification development for the Hermes bridge mediation engine
(`src/bridge/hermes_bridge.py`): the policy/rate-limit gate, the session
tracker, the event outbox drain worker, the audit ledger, and the CLI
invocation protocol.  Python functions are shallowly embedded as Lean
definitions; mutable module state (`_rate_counts`, the Postgres tables)
is passed explicitly.  Wall-clock timestamps are modelled as integers
(seconds); `time.time()` values taken inside one request are identified,
and request sequences are assumed to carry non-decreasing timestamps.
-/

set_option autoImplicit false

namespace Hermes

/-! ## Policy document

`_policy` is a JSON dict; the fields the engine reads are modelled as a
structure with `Option` fields so that the `.get(key, default)` defaults
in the source stay visible at each use site. -/

/-- One entry of `_policy["per_agent"]`; every field may be absent, in which
case the source applies a default at the point of use. -/
structure AgentLimits where
  calls_per_hour : Option Nat
  max_cost_per_call_usd : Option ℚ
  allowed_targets : Option (List String)
  priority_levels : Option (List String)
  quiet_hours_exempt : Option Bool
  deriving DecidableEq, Repr

/-- The fields of the hot-reloadable `_policy` document that the mediation
engine reads. -/
structure Policy where
  per_agent : List (String × AgentLimits)
  global_calls_per_hour : Option Nat
  quiet_start : Option String
  quiet_end : Option String
  event_webhooks : List (String × String)
  audit_log_to_jsonl : Option Bool
  deriving DecidableEq, Repr

/-- First-match association-list lookup (Python dict access with unique keys). -/
def alookup {β : Type} : List (String × β) → String → Option β
  | [], _ => none
  | (k, v) :: rest, c => if k = c then some v else alookup rest c

/-- The restrictive default returned by `get_agent_limits` for an
unconfigured caller (source lines 91-96). -/
def defaultAgentLimits : AgentLimits :=
  { calls_per_hour := some 5
    max_cost_per_call_usd := some (1 / 10)
    allowed_targets := some []
    priority_levels := some ["low", "normal"]
    quiet_hours_exempt := none }

/-- `get_agent_limits`: the caller's configured limits, else the restrictive
default. -/
def get_agent_limits (p : Policy) (caller_id : String) : AgentLimits :=
  match alookup p.per_agent caller_id with
  | some d => d
  | none => defaultAgentLimits

/-- Effective per-caller hourly ceiling: `agent_limits.get("calls_per_hour", 5)`. -/
def agentCeiling (p : Policy) (caller_id : String) : Nat :=
  (get_agent_limits p caller_id).calls_per_hour.getD 5

/-- Effective global hourly ceiling:
`_policy.get("global_limits", {}).get("calls_per_hour", 60)`. -/
def globalCeiling (p : Policy) : Nat :=
  p.global_calls_per_hour.getD 60

/-! ## Rate limiter (`_rate_counts`, `_prune`, `check_rate_limit`, `record_call`)

`_rate_counts : defaultdict[str, list[float]]` becomes an association list
from caller id to its list of call timestamps; an absent key reads as `[]`. -/

/-- The in-memory `_rate_counts` map. -/
abbrev RateCounts := List (String × List Int)

/-- Read a caller's timestamp list (`defaultdict` read: absent key is `[]`). -/
def rcGet : RateCounts → String → List Int
  | [], _ => []
  | (k, v) :: rest, c => if k = c then v else rcGet rest c

/-- Write a caller's timestamp list, creating the key if absent. -/
def rcSet : RateCounts → String → List Int → RateCounts
  | [], c, l => [(c, l)]
  | (k, v) :: rest, c, l =>
    if k = c then (c, l) :: rest else (k, v) :: rcSet rest c l

/-- `_prune(caller_id)`: drop the requesting caller's timestamps that are not
strictly newer than `time.time() - 3600`.  Only this caller's list is touched. -/
def prune (rc : RateCounts) (caller_id : String) (now : Int) : RateCounts :=
  rcSet rc caller_id ((rcGet rc caller_id).filter (fun t => decide (now - 3600 < t)))

/-- Total length of all timestamp lists:
`sum(len(v) for v in _rate_counts.values())`. -/
def totalCalls (rc : RateCounts) : Nat :=
  (rc.map (fun kv => kv.2.length)).sum

/-- Single-quote character, spelled out to keep message strings faithful. -/
def sq : String := "\x27"

/-- Python string slicing `s[:n]` (by characters). -/
def pytake (s : String) (n : Nat) : String :=
  String.mk (s.data.take n)

/-- Join a list of strings with a separator (Python `sep.join`). -/
def joinWith (sep : String) : List String → String
  | [] => ""
  | [s] => s
  | s :: rest => s ++ sep ++ joinWith sep rest

/-- Denial message of the global rate limit branch. -/
def globalRateMsg (n : Nat) : String :=
  "Global rate limit (" ++ toString n ++ "/hr) exceeded"

/-- Denial message of the per-agent rate limit branch. -/
def agentRateMsg (caller_id : String) (n : Nat) : String :=
  "Agent " ++ sq ++ caller_id ++ sq ++ " rate limit (" ++ toString n ++ "/hr) exceeded"

/-- `check_rate_limit(caller_id)`: prune the caller, then test the global
ceiling and the caller's ceiling.  Returns `(allowed, reason)` together with
the updated (pruned) `_rate_counts` state. -/
def check_rate_limit (p : Policy) (rc : RateCounts) (caller_id : String) (now : Int) :
    (Bool × String) × RateCounts :=
  if globalCeiling p ≤ totalCalls (prune rc caller_id now) then
    ((false, globalRateMsg (globalCeiling p)), prune rc caller_id now)
  else if agentCeiling p caller_id ≤ (rcGet (prune rc caller_id now) caller_id).length then
    ((false, agentRateMsg caller_id (agentCeiling p caller_id)), prune rc caller_id now)
  else
    ((true, "ok"), prune rc caller_id now)

/-- `record_call(caller_id)`: append the current time to the caller's list. -/
def record_call (rc : RateCounts) (caller_id : String) (now : Int) : RateCounts :=
  rcSet rc caller_id (rcGet rc caller_id ++ [now])

/-! ## Quiet hours (`is_quiet_hours`) -/

/-- Decimal value of a digit string, if every character is a digit. -/
def digitsToNat (cs : List Char) : Option Nat :=
  if cs ≠ [] ∧ cs.all Char.isDigit then
    some (cs.foldl (fun acc c => acc * 10 + (c.toNat - 48)) 0)
  else none

/-- `int(s.split(":")[0])` on a well-formed `"HH:MM"` string (malformed
configuration strings, which would raise in the source, read as 0). -/
def parseHourPart (s : String) : Nat :=
  (digitsToNat (s.data.takeWhile (fun c => c != ':'))).getD 0

/-- `is_quiet_hours()`, with the current local hour supplied by the
environment.  Defaults: start `"23:00"`, end `"08:00"`; a window that wraps
midnight (`start > end`) is the disjunction of the two half-windows. -/
def is_quiet_hours (p : Policy) (hour : Nat) : Bool :=
  let start := parseHourPart (p.quiet_start.getD "23:00")
  let stop := parseHourPart (p.quiet_end.getD "08:00")
  if stop < start then
    decide (start ≤ hour) || decide (hour < stop)
  else
    decide (start ≤ hour) && decide (hour < stop)

/-! ## Policy gate (`enforce_policy`) -/

/-- Denial message of the quiet-hours branch. -/
def quietMsg : String :=
  "Quiet hours active. Only priority=" ++ sq ++ "critical" ++ sq ++ " allowed."

/-- Python `repr` of a list of strings, as interpolated into the priority
denial message. -/
def pyListRepr (ps : List String) : String :=
  "[" ++ joinWith ", " (ps.map (fun s => sq ++ s ++ sq)) ++ "]"

/-- Denial message of the priority whitelist branch. -/
def priorityMsg (caller_id priority : String) (allowed : List String) : String :=
  "Agent " ++ sq ++ caller_id ++ sq ++ " not allowed priority " ++ sq ++ priority ++ sq
    ++ " (allowed: " ++ pyListRepr allowed ++ ")"

/-- `enforce_policy(caller_id, endpoint, priority)`: quiet hours, then rate
limit, then priority whitelist, short-circuiting on the first denial.
Returns the denial message (or `none` for allowed) and the updated
`_rate_counts` state. -/
def enforce_policy (p : Policy) (rc : RateCounts) (hour : Nat)
    (caller_id endpoint priority : String) (now : Int) : Option String × RateCounts :=
  if is_quiet_hours p hour && !(priority == "critical")
      && !((get_agent_limits p caller_id).quiet_hours_exempt.getD false
            || caller_id == "dashboard") then
    (some quietMsg, rc)
  else if (check_rate_limit p rc caller_id now).1.1 = false then
    (some (check_rate_limit p rc caller_id now).1.2, (check_rate_limit p rc caller_id now).2)
  else if priority ∈ (get_agent_limits p caller_id).priority_levels.getD ["low", "normal"] then
    (none, (check_rate_limit p rc caller_id now).2)
  else
    (some (priorityMsg caller_id priority
            ((get_agent_limits p caller_id).priority_levels.getD ["low", "normal"])),
      (check_rate_limit p rc caller_id now).2)

/-! ## Trace semantics of the gate

A mediated call is accepted when `enforce_policy` returns `None`, after which
the endpoint calls `record_call` (source lines 918-934).  `runGate` replays a
timestamped request sequence through that accept path. -/

/-- One inbound mediated call. -/
structure CallReq where
  caller : String
  priority : String
  time : Int
  deriving DecidableEq, Repr

/-- One request through the gate: `enforce_policy`, and on success
`record_call`.  Returns the denial reason (if any) and the new state. -/
def gateStep (p : Policy) (hour : Nat) (rc : RateCounts) (r : CallReq) :
    Option String × RateCounts :=
  ((enforce_policy p rc hour r.caller "/claude/ask" r.priority r.time).1,
    if (enforce_policy p rc hour r.caller "/claude/ask" r.priority r.time).1 = none then
      record_call (enforce_policy p rc hour r.caller "/claude/ask" r.priority r.time).2
        r.caller r.time
    else (enforce_policy p rc hour r.caller "/claude/ask" r.priority r.time).2)

/-- Replay a request sequence; returns the accepted calls in order, and the
final `_rate_counts` state. -/
def runGate (p : Policy) (hour : Nat) : RateCounts → List CallReq → List CallReq × RateCounts
  | rc, [] => ([], rc)
  | rc, r :: rs =>
    match gateStep p hour rc r with
    | (none, rc1) =>
      let rest := runGate p hour rc1 rs
      (r :: rest.1, rest.2)
    | (some _, rc1) => runGate p hour rc1 rs

/-- Request timestamps are non-decreasing and bounded below by the given
start time (wall-clock monotonicity). -/
def TimesMono : Int → List CallReq → Prop
  | _, [] => True
  | t, r :: rs => t ≤ r.time ∧ TimesMono r.time rs

instance instDecidableTimesMono : ∀ (t : Int) (rs : List CallReq), Decidable (TimesMono t rs)
  | _, [] => .isTrue trivial
  | t, r :: rs =>
    match inferInstanceAs (Decidable (t ≤ r.time)), instDecidableTimesMono r.time rs with
    | .isTrue h1, .isTrue h2 => .isTrue ⟨h1, h2⟩
    | .isFalse h1, _ => .isFalse (fun h => h1 h.1)
    | _, .isFalse h2 => .isFalse (fun h => h2 h.2)

/-! ## Event outbox (`hermes_event_outbox`, `emit_event`, `_drain_outbox`)

The outbox table is modelled as a list of rows kept in `created_at` order
(matching both insertion order and the worker's `ORDER BY created_at`). -/

/-- `status` column: `pending`, `delivered` or `failed`. -/
inductive OStatus where
  | pending
  | delivered
  | failed
  deriving DecidableEq, Repr

/-- One `hermes_event_outbox` row. -/
structure OEvent where
  id : Nat
  event_type : String
  source : String
  payload : String
  webhook_url : String
  status : OStatus
  attempts : Nat
  last_error : Option String
  delivered_at : Option Int
  deriving DecidableEq, Repr

/-- `MAX_ATTEMPTS` in `_drain_outbox`. -/
def MAX_ATTEMPTS : Nat := 5

/-- `BATCH_SIZE` in `_drain_outbox`. -/
def BATCH_SIZE : Nat := 20

/-- Outcome of one `client.post` to a webhook: an HTTP response,
`httpx.ConnectError`, or any other exception. -/
inductive PostResult where
  | ok (statusCode : Nat)
  | connectError
  | exc (msg : String)
  deriving DecidableEq, Repr

/-- The worker's batch query: pending rows with attempts below the ceiling,
oldest first, at most `BATCH_SIZE`. -/
def drainEligible (e : OEvent) : Bool :=
  e.status == OStatus.pending && e.attempts < MAX_ATTEMPTS

/-- `SELECT ... WHERE status = 'pending' AND attempts < 5 ORDER BY created_at
LIMIT 20` over a table kept in `created_at` order. -/
def selectBatch (tbl : List OEvent) : List OEvent :=
  (tbl.filter drainEligible).take BATCH_SIZE

/-- Row update on successful delivery (`status='delivered', delivered_at=NOW()`). -/
def markDelivered (now : Int) (e : OEvent) : OEvent :=
  { e with status := OStatus.delivered, delivered_at := some now }

/-- Row update on a failed attempt (`attempts = attempts + 1, last_error = ...`). -/
def bumpAttempt (err : String) (e : OEvent) : OEvent :=
  { e with attempts := e.attempts + 1, last_error := some err }

/-- The delivery loop body of `_drain_outbox`: walk the batch in order,
writing one row update per attempted event; `httpx.ConnectError`
circuit-breaks, abandoning the rest of the batch. -/
def attemptBatch (post : Nat → PostResult) (now : Int) : List OEvent → List OEvent
  | [] => []
  | e :: rest =>
    match post e.id with
    | PostResult.ok code =>
      if code < 400 then
        markDelivered now e :: attemptBatch post now rest
      else
        bumpAttempt ("HTTP " ++ toString code) e :: attemptBatch post now rest
    | PostResult.connectError =>
      [bumpAttempt "n8n unreachable" e]
    | PostResult.exc m =>
      bumpAttempt (pytake m 500) e :: attemptBatch post now rest

/-- Effect of one `UPDATE ... WHERE id = %s` write on one row. -/
def replaceByUpdate (e u : OEvent) : OEvent :=
  if e.id = u.id then u else e

/-- Apply one `UPDATE ... WHERE id = %s` row write to the table. -/
def applyUpdate (tbl : List OEvent) (u : OEvent) : List OEvent :=
  tbl.map (fun e => replaceByUpdate e u)

/-- Apply the batch's row writes in order. -/
def applyUpdates (tbl : List OEvent) (ups : List OEvent) : List OEvent :=
  ups.foldl applyUpdate tbl

/-- Effect of the end-of-cycle sweep on one row. -/
def sweepRow (e : OEvent) : OEvent :=
  if e.status == OStatus.pending && MAX_ATTEMPTS ≤ e.attempts then
    { e with status := OStatus.failed }
  else e

/-- End-of-cycle sweep:
`UPDATE ... SET status='failed' WHERE status='pending' AND attempts >= 5`. -/
def sweepFailed (tbl : List OEvent) : List OEvent :=
  tbl.map sweepRow

/-- One drain cycle of `_drain_outbox`: fetch the batch — an empty batch
ends the cycle immediately (`if not rows: continue`) — then attempt
deliveries (with circuit-break), then sweep exhausted pending rows to
`failed`. -/
def drainCycle (post : Nat → PostResult) (now : Int) (tbl : List OEvent) : List OEvent :=
  if (selectBatch tbl).isEmpty then tbl
  else sweepFailed (applyUpdates tbl (attemptBatch post now (selectBatch tbl)))

/-- Several drain cycles; `posts n` is the webhook behaviour during cycle `n`. -/
def drainCycles (posts : Nat → Nat → PostResult) (now : Int) : Nat → List OEvent → List OEvent
  | 0, tbl => tbl
  | n + 1, tbl => drainCycles posts now n (drainCycle (posts n) now tbl)

/-! ## Durable store availability and best-effort side effects
(`emit_event`, `audit_log`)

A fallible operation is embedded in `Except String`; an embedded `try/except`
is an explicit `match` on the inner result.  The durable store is an oracle:
`down` models `get_pg()` returning `None`, `failing` models a write raising,
`healthy` a working store. -/

/-- State of the Postgres connection as seen through `get_pg()`. -/
inductive StoreState where
  | down
  | failing
  | healthy
  deriving DecidableEq, Repr

/-- A Postgres write: raises (`Except.error`) when the store is `failing`. -/
def pgWrite {α : Type} (st : StoreState) (a : α) : Except String α :=
  match st with
  | StoreState.failing => Except.error "pg write failed"
  | _ => Except.ok a

/-- `emit_event(event_type, source, payload)`: resolve the webhook URL from
policy at enqueue time, insert a pending row, and swallow any storage error
(log and drop).  Returns the new outbox table; never an `Except.error`. -/
def emit_event (p : Policy) (n8nBase : String) (st : StoreState)
    (tbl : List OEvent) (freshId : Nat) (event_type source payload : String) :
    Except String (List OEvent) :=
  match st with
  | StoreState.down => Except.ok tbl
  | _ =>
    let webhook_path :=
      (alookup p.event_webhooks event_type).getD
        ((alookup p.event_webhooks "_default").getD "/webhook/hermes-events")
    let webhook_url := n8nBase ++ webhook_path
    let row : OEvent :=
      { id := freshId, event_type := event_type, source := source, payload := payload
        webhook_url := webhook_url, status := OStatus.pending, attempts := 0
        last_error := none, delivered_at := none }
    match pgWrite st (tbl ++ [row]) with
    | Except.ok tbl1 => Except.ok tbl1
    | Except.error _ => Except.ok tbl

/-- One `hermes_audit_log` row (the columns the claims touch). -/
structure AuditRow where
  caller_id : String
  endpoint : String
  target : Option String
  priority : String
  request_summary : Option String
  response_summary : Option String
  success : Bool
  error : Option String
  deriving DecidableEq, Repr

/-- Truncate an optional summary (`s[:n] if s else None`). -/
def truncOpt (n : Nat) : Option String → Option String
  | none => none
  | some s => some (pytake s n)

/-- `audit_log(...)`: best-effort write to the Postgres audit table (summaries
truncated to 500), then to the JSONL backup (summaries truncated to 200) when
enabled; every failure is caught locally.  Returns the pair
(Postgres audit table, JSONL backup log); never an `Except.error`. -/
def audit_log (p : Policy) (st : StoreState) (fsOk : Bool)
    (pgLog jsonlLog : List AuditRow) (row : AuditRow) :
    Except String (List AuditRow × List AuditRow) :=
  let pgRow := { row with
    request_summary := truncOpt 500 row.request_summary
    response_summary := truncOpt 500 row.response_summary }
  let pgLog1 :=
    match st with
    | StoreState.down => pgLog
    | _ =>
      match pgWrite st (pgLog ++ [pgRow]) with
      | Except.ok l => l
      | Except.error _ => pgLog
  if p.audit_log_to_jsonl.getD true then
    let jsonlRow := { row with
      request_summary := truncOpt 200 row.request_summary
      response_summary := truncOpt 200 row.response_summary }
    if fsOk then
      Except.ok (pgLog1, jsonlLog ++ [jsonlRow])
    else
      Except.ok (pgLog1, jsonlLog)
  else
    Except.ok (pgLog1, jsonlLog)

/-! ## Session tracker (`hermes_sessions`, `get_or_create_session`)

Sessions are keyed by the deterministic id
`"hermes-" ++ caller ++ "-" ++ target ++ "-" ++ purpose`.  The table is an
association list from that primary key to the row; the `id` primary-key
constraint makes a duplicate `INSERT` raise. -/

/-- One `hermes_sessions` row (minus timestamps, which no claim touches). -/
structure SessRow where
  caller_id : String
  target : String
  session_type : String
  claude_session_id : Option String
  message_count : Nat
  deriving DecidableEq, Repr

/-- The `hermes_sessions` table. -/
abbrev SessionTable := List (String × SessRow)

/-- The deterministic session key: `f"hermes-{caller_id}-{target}-{purpose}"`. -/
def sessionKey (caller_id target purpose : String) : String :=
  "hermes-" ++ caller_id ++ "-" ++ target ++ "-" ++ purpose

/-- The row inserted for a fresh session: the external conversation handle is
minted (a fresh uuid) at creation exactly when `session_type == "claude"`. -/
def newSessRow (caller_id target session_type freshHandle : String) : SessRow :=
  { caller_id := caller_id, target := target, session_type := session_type
    claude_session_id := if session_type = "claude" then some freshHandle else none
    message_count := 0 }

/-- The `UPDATE` branch: bump `message_count` (and `last_used`). -/
def bumpSession : SessionTable → String → SessionTable
  | [], _ => []
  | (k, v) :: rest, sid =>
    if k = sid then (k, { v with message_count := v.message_count + 1 }) :: rest
    else (k, v) :: bumpSession rest sid

/-- `get_or_create_session(caller_id, target, session_type, purpose)`:
always returns the deterministic key; with a healthy store it bumps an
existing row or inserts a new one (handle minted at insert); with the store
down or any storage error the exception is swallowed and the key is still
returned.  Never an `Except.error`. -/
def get_or_create_session (st : StoreState) (tbl : SessionTable)
    (caller_id target session_type purpose freshHandle : String) :
    Except String (String × SessionTable) :=
  let session_id := sessionKey caller_id target purpose
  match st with
  | StoreState.down => Except.ok (session_id, tbl)
  | StoreState.failing =>
    -- the SELECT/INSERT/UPDATE raised; caught, rolled back, key returned
    Except.ok (session_id, tbl)
  | StoreState.healthy =>
    match alookup tbl session_id with
    | some _ => Except.ok (session_id, bumpSession tbl session_id)
    | none =>
      Except.ok (session_id,
        tbl ++ [(session_id, newSessRow caller_id target session_type freshHandle)])

/-- `get_claude_session_id(hermes_session_id)` with a healthy store. -/
def get_claude_session_id (tbl : SessionTable) (sid : String) : Option String :=
  match alookup tbl sid with
  | some row => row.claude_session_id
  | none => none

/-! ### Concurrent resolve, at the storage-operation granularity

`get_or_create_session` is a `SELECT` followed by an `INSERT`-or-`UPDATE`,
not an atomic upsert.  Two concurrent resolves for the same triple are
modelled as two threads, each performing its read step then its write step,
interleaved by an arbitrary schedule.  A duplicate `INSERT` hits the primary
key, raises, and is rolled back (the source's bare `except` then still
returns the deterministic key). -/

/-- Program counter of one resolve thread: before the `SELECT`, before the
write (`sawRow` caches the `SELECT` result), or finished. -/
inductive RPc where
  | beforeSelect
  | beforeWrite (sawRow : Bool)
  | finished
  deriving DecidableEq, Repr

/-- The write step: `UPDATE` when the thread's earlier `SELECT` saw the row,
else `INSERT` — which raises on the primary key and is rolled back if some
other thread inserted the row in between. -/
def resolveWrite (tbl : SessionTable) (sid : String) (sawRow : Bool)
    (caller_id target session_type freshHandle : String) : SessionTable :=
  if sawRow then
    bumpSession tbl sid
  else if (alookup tbl sid).isSome then
    tbl  -- duplicate INSERT: unique violation, exception caught, rollback
  else
    tbl ++ [(sid, newSessRow caller_id target session_type freshHandle)]

/-- Shared state of two interleaved resolves for the same
(caller, target, purpose) triple; the threads differ only in the fresh
handle each would mint. -/
structure TwoResolve where
  tbl : SessionTable
  pcA : RPc
  pcB : RPc
  deriving DecidableEq, Repr

/-- Let one thread (true = A) run its next storage operation. -/
def resolveStep (caller_id target session_type purpose hA hB : String)
    (s : TwoResolve) (who : Bool) : TwoResolve :=
  let sid := sessionKey caller_id target purpose
  if who then
    match s.pcA with
    | RPc.beforeSelect => { s with pcA := RPc.beforeWrite (alookup s.tbl sid).isSome }
    | RPc.beforeWrite saw =>
      { s with tbl := resolveWrite s.tbl sid saw caller_id target session_type hA
               pcA := RPc.finished }
    | RPc.finished => s
  else
    match s.pcB with
    | RPc.beforeSelect => { s with pcB := RPc.beforeWrite (alookup s.tbl sid).isSome }
    | RPc.beforeWrite saw =>
      { s with tbl := resolveWrite s.tbl sid saw caller_id target session_type hB
               pcB := RPc.finished }
    | RPc.finished => s

/-- Run a schedule (list of thread choices) over the two resolves. -/
def resolveRun (caller_id target session_type purpose hA hB : String)
    (s : TwoResolve) : List Bool → TwoResolve
  | [] => s
  | w :: ws =>
    resolveRun caller_id target session_type purpose hA hB
      (resolveStep caller_id target session_type purpose hA hB s w) ws

/-- The spec's atomic upsert (`create-if-absent, else update`), executed as a
single indivisible storage operation.  Written from the specification text,
for comparison with the source's read-then-write `get_or_create_session`. -/
def atomicUpsertResolve (tbl : SessionTable)
    (caller_id target session_type purpose freshHandle : String) : String × SessionTable :=
  let sid := sessionKey caller_id target purpose
  match alookup tbl sid with
  | some _ => (sid, bumpSession tbl sid)
  | none => (sid, tbl ++ [(sid, newSessRow caller_id target session_type freshHandle)])

/-! ## JSON values and `json.loads`

The CLI output protocol sniffs JSON, so a JSON value type and a (fuel-based,
total) parser for `json.loads` are embedded.  Python dicts from duplicate
keys keep the last occurrence, so object lookup is last-wins. -/

/-- A parsed JSON value; numbers are exact rationals. -/
inductive Json where
  | null
  | bool (b : Bool)
  | num (q : ℚ)
  | str (s : String)
  | arr (elems : List Json)
  | obj (fields : List (String × Json))

/-- Python truthiness of a parsed JSON value (`if p.get("text")`). -/
def jtruthy : Json → Bool
  | Json.null => false
  | Json.bool b => b
  | Json.num q => decide (q ≠ 0)
  | Json.str s => !s.data.isEmpty
  | Json.arr xs => !xs.isEmpty
  | Json.obj fs => !fs.isEmpty

/-- Last-wins object field lookup (`json.loads` keeps the last duplicate key). -/
def jlookup (fields : List (String × Json)) (k : String) : Option Json :=
  match fields with
  | [] => none
  | (k1, v) :: rest =>
    match jlookup rest k with
    | some v1 => some v1
    | none => if k1 = k then some v else none

/-- The left-brace character, kept out of string literals. -/
def lbrace : Char := Char.ofNat 123

/-- The right-brace character, kept out of string literals. -/
def rbrace : Char := Char.ofNat 125

/-- JSON whitespace (also the core of Python `str.strip`). -/
def isWsChar (c : Char) : Bool :=
  [' ', '\t', '\n', '\r'].contains c

/-- Drop leading whitespace. -/
def skipWs : List Char → List Char
  | [] => []
  | c :: rest => if isWsChar c then skipWs rest else c :: rest

/-- Python `str.strip()` (over the common whitespace characters). -/
def pstrip (s : String) : String :=
  String.mk (((s.data.dropWhile isWsChar).reverse.dropWhile isWsChar).reverse)

/-- Value of a hex digit, if any. -/
def hexVal (c : Char) : Option Nat :=
  if c.isDigit then some (c.toNat - 48)
  else if 97 ≤ c.toNat && c.toNat ≤ 102 then some (c.toNat - 87)
  else if 65 ≤ c.toNat && c.toNat ≤ 70 then some (c.toNat - 55)
  else none

/-- The single-character JSON string escape table. -/
def escPairs : List (Char × Char) :=
  [('"', '"'), ('\\', '\\'), ('/', '/'), ('n', '\n'), ('t', '\t'), ('r', '\r'),
   ('b', Char.ofNat 8), ('f', Char.ofNat 12)]

/-- Single-character JSON string escapes. -/
def escChar (c : Char) : Option Char :=
  (escPairs.find? (fun pc => pc.1 == c)).map Prod.snd

/-- Body of a JSON string after the opening quote; fuel-bounded.  Strict mode:
raw control characters and unknown escapes are rejected. -/
def parseStringBody : Nat → List Char → Option (String × List Char)
  | 0, _ => none
  | _ + 1, [] => none
  | fuel + 1, c :: rest =>
    if c == '"' then some ("", rest)
    else if c == '\\' then
      match rest with
      | [] => none
      | e :: rest2 =>
        if e == 'u' then
          match rest2 with
          | h1 :: h2 :: h3 :: h4 :: rest3 =>
            match hexVal h1, hexVal h2, hexVal h3, hexVal h4 with
            | some a, some b, some c1, some d =>
              match parseStringBody fuel rest3 with
              | some (s, r) =>
                some (String.singleton (Char.ofNat (((a * 16 + b) * 16 + c1) * 16 + d)) ++ s, r)
              | none => none
            | _, _, _, _ => none
          | _ => none
        else
          match escChar e with
          | some d =>
            match parseStringBody fuel rest2 with
            | some (s, r) => some (String.singleton d ++ s, r)
            | none => none
          | none => none
    else if c.toNat < 32 then none
    else
      match parseStringBody fuel rest with
      | some (s, r) => some (String.singleton c ++ s, r)
      | none => none

/-- Greedily consume decimal digits, accumulating their value and count. -/
def takeDigits : List Char → Nat × Nat × List Char
  | [] => (0, 0, [])
  | c :: rest =>
    if c.isDigit then
      let (v, n, r) := takeDigits rest
      ((c.toNat - 48) * 10 ^ n + v, n + 1, r)
    else (0, 0, c :: rest)

/-- JSON number grammar: optional minus, integer part without leading zeros,
optional fraction, optional exponent. -/
def parseNumber (cs : List Char) : Option (ℚ × List Char) :=
  let (neg, cs1) :=
    match cs with
    | c :: rest => if c == '-' then (true, rest) else (false, cs)
    | [] => (false, cs)
  let intPart : Option (Nat × List Char) :=
    match cs1 with
    | '0' :: rest =>
      match rest with
      | d :: _ => if d.isDigit then none else some (0, rest)
      | [] => some (0, [])
    | c :: _ =>
      if c.isDigit then
        let (v, n, r) := takeDigits cs1
        if n = 0 then none else some (v, r)
      else none
    | [] => none
  match intPart with
  | none => none
  | some (ip, cs2) =>
    let fracPart : Option (ℚ × List Char) :=
      match cs2 with
      | '.' :: rest =>
        let (v, n, r) := takeDigits rest
        if n = 0 then none else some ((v : ℚ) / (10 ^ n : ℚ), r)
      | _ => some (0, cs2)
    match fracPart with
    | none => none
    | some (fp, cs3) =>
      let expPart : Option (ℚ × List Char) :=
        match cs3 with
        | c :: rest =>
          if c == 'e' || c == 'E' then
            let (eneg, rest1) :=
              match rest with
              | d :: rest2 =>
                if d == '-' then (true, rest2)
                else if d == '+' then (false, rest2)
                else (false, rest)
              | [] => (false, rest)
            let (v, n, r) := takeDigits rest1
            if n = 0 then none
            else some (if eneg then 1 / (10 ^ v : ℚ) else (10 ^ v : ℚ), r)
          else some (1, cs3)
        | [] => some (1, cs3)
      match expPart with
      | none => none
      | some (ep, cs4) =>
        let mag := ((ip : ℚ) + fp) * ep
        some ((if neg then -mag else mag), cs4)

mutual

/-- One JSON value; fuel-bounded (every mutual call strictly decreases the
fuel, and fuel `2 * length + 2` always suffices since each decrease
accompanies at least one consumed character every two steps). -/
def parseValue : Nat → List Char → Option (Json × List Char)
  | 0, _ => none
  | _ + 1, [] => none
  | fuel + 1, c :: rest =>
    if c == '"' then
      match parseStringBody (fuel + 1) rest with
      | some (s, r) => some (Json.str s, r)
      | none => none
    else if c == 't' then
      match rest with
      | 'r' :: 'u' :: 'e' :: r => some (Json.bool true, r)
      | _ => none
    else if c == 'f' then
      match rest with
      | 'a' :: 'l' :: 's' :: 'e' :: r => some (Json.bool false, r)
      | _ => none
    else if c == 'n' then
      match rest with
      | 'u' :: 'l' :: 'l' :: r => some (Json.null, r)
      | _ => none
    else if c == '[' then
      let cs1 := skipWs rest
      match cs1 with
      | ']' :: r => some (Json.arr [], r)
      | _ =>
        match parseArrayItems fuel cs1 with
        | some (xs, r) => some (Json.arr xs, r)
        | none => none
    else if c == lbrace then
      let cs1 := skipWs rest
      match cs1 with
      | d :: r =>
        if d == rbrace then some (Json.obj [], r)
        else
          match parseObjItems fuel (d :: r) with
          | some (fs, r1) => some (Json.obj fs, r1)
          | none => none
      | [] => none
    else if c == '-' || c.isDigit then
      match parseNumber (c :: rest) with
      | some (q, r) => some (Json.num q, r)
      | none => none
    else none

/-- Comma-separated array items up to the closing bracket. -/
def parseArrayItems : Nat → List Char → Option (List Json × List Char)
  | 0, _ => none
  | fuel + 1, cs =>
    match parseValue fuel cs with
    | none => none
    | some (v, r) =>
      match skipWs r with
      | ',' :: r1 =>
        match parseArrayItems fuel (skipWs r1) with
        | some (xs, r2) => some (v :: xs, r2)
        | none => none
      | ']' :: r1 => some ([v], r1)
      | _ => none

/-- Comma-separated `"key": value` object items up to the closing brace. -/
def parseObjItems : Nat → List Char → Option (List (String × Json) × List Char)
  | 0, _ => none
  | fuel + 1, cs =>
    match cs with
    | '"' :: r =>
      match parseStringBody (fuel + 1) r with
      | none => none
      | some (k, r1) =>
        match skipWs r1 with
        | ':' :: r2 =>
          match parseValue fuel (skipWs r2) with
          | none => none
          | some (v, r3) =>
            match skipWs r3 with
            | ',' :: r4 =>
              match parseObjItems fuel (skipWs r4) with
              | some (fs, r5) => some ((k, v) :: fs, r5)
              | none => none
            | d :: r4 =>
              if d == rbrace then some ([(k, v)], r4) else none
            | [] => none
        | _ => none
    | _ => none

end

/-- `json.loads`: parse one complete JSON document, allowing surrounding
whitespace; `none` models `json.JSONDecodeError`. -/
def json_loads (s : String) : Option Json :=
  let cs := skipWs s.data
  match parseValue (2 * cs.length + 2) cs with
  | some (v, rest) => if (skipWs rest).isEmpty then some v else none
  | none => none

/-- Rendering of a JSON number under Python `str` (exact for integers; the
int/float distinction and float formatting are approximated, no claim
depends on them). -/
def numRepr (q : ℚ) : String :=
  if q.den = 1 then toString q.num
  else toString q.num ++ "/" ++ toString q.den

mutual

/-- Python `repr` of a parsed JSON value (as used inside containers). -/
def pyRepr : Json → String
  | Json.null => "None"
  | Json.bool true => "True"
  | Json.bool false => "False"
  | Json.num q => numRepr q
  | Json.str s => sq ++ s ++ sq
  | Json.arr xs => "[" ++ joinWith ", " (pyReprList xs) ++ "]"
  | Json.obj fs =>
    String.singleton lbrace ++ joinWith ", " (pyReprFields fs)
      ++ String.singleton rbrace

/-- `repr` of each array element. -/
def pyReprList : List Json → List String
  | [] => []
  | x :: xs => pyRepr x :: pyReprList xs

/-- `repr` of each `key: value` pair. -/
def pyReprFields : List (String × Json) → List String
  | [] => []
  | (k, v) :: fs => (sq ++ k ++ sq ++ ": " ++ pyRepr v) :: pyReprFields fs

end

/-- Python `str` of a parsed JSON value: a string is itself, anything else
renders as its `repr`. -/
def pythonStr : Json → String
  | Json.str s => s
  | j => pyRepr j

/-! ## CLI output recovery (`invoke_claude`, source lines 553-575)

The protocol runs inside `try/except (json.JSONDecodeError, KeyError)`, so a
`TypeError`/`AttributeError` raised while sniffing the parsed value escapes
to the generic handler and the invocation reports failure.  `ParseOutcome`
keeps that distinction. -/

/-- Result of the stdout recovery: a clean `(response_text, cost)` pair, or
an exception that escaped the `(JSONDecodeError, KeyError)` handler. -/
inductive ParseOutcome where
  | ok (response : String) (cost : Json)
  | pyError (msg : String)

/-- Index of the first occurrence of the two-character pattern
newline-then-open-brace (`raw.find("\n" + "&#123;")`). -/
def findNlBrace : List Char → Option Nat
  | [] => none
  | c :: rest =>
    if c == '\n' && (match rest with | d :: _ => d == lbrace | [] => false) then
      some 0
    else
      match findNlBrace rest with
      | some i => some (i + 1)
      | none => none

/-- Locate the JSON document inside possibly noisy stdout: everything after
the first newline that is immediately followed by an open brace; otherwise
the whole string (the source's `startswith` branch re-assigns the same
value). -/
def extract_json_str (raw : String) : String :=
  match findNlBrace raw.data with
  | some i => String.mk (raw.data.drop (i + 1))
  | none => raw

/-- A payload fragment contributes its `"text"` field when it is a dict and
that field is truthy (`isinstance(p, dict) and p.get("text")`). -/
def textFragOf (p : Json) : Option Json :=
  match p with
  | Json.obj fs =>
    match jlookup fs "text" with
    | some v => if jtruthy v then some v else none
    | none => none
  | _ => none

/-- Python iteration over the `payloads` value: lists yield elements, dicts
yield their keys, strings yield their characters; anything else raises
`TypeError`. -/
def iterElems : Json → Option (List Json)
  | Json.arr xs => some xs
  | Json.obj fs => some (fs.map (fun kv => Json.str kv.1))
  | Json.str s => some (s.data.map (fun c => Json.str (String.singleton c)))
  | _ => none

/-- A fragment value as a Python `str`, if it is one (`"\n".join` raises
`TypeError` on anything else). -/
def asStr : Json → Option String
  | Json.str s => some s
  | _ => none

/-- The `result`-is-a-dict branch: concatenate the truthy `"text"` fragments
of `result["payloads"]`, else fall back to `result["text"]`,
`result["message"]`, then `"No response"`. -/
def extractFromResultDict (rfs : List (String × Json)) : Except String String :=
  let payloads := (jlookup rfs "payloads").getD (Json.arr [])
  match iterElems payloads with
  | none => Except.error "TypeError: payloads is not iterable"
  | some elems =>
    let texts := elems.filterMap textFragOf
    if texts.isEmpty then
      Except.ok (pythonStr
        ((jlookup rfs "text").getD ((jlookup rfs "message").getD (Json.str "No response"))))
    else
      match texts.mapM asStr with
      | some strs => Except.ok (joinWith "\n" strs)
      | none => Except.error "TypeError: sequence item is not a str"

/-- The `result`-value branch: extract the response text, pairing it with
the `cost_usd` field (defaulting to zero); a non-dict `result` renders as
Python `str`. -/
def recover_result (result : Json) (cost : Json) : ParseOutcome :=
  match result with
  | Json.obj rfs =>
    match extractFromResultDict rfs with
    | Except.ok t => ParseOutcome.ok t cost
    | Except.error m => ParseOutcome.pyError m
  | other => ParseOutcome.ok (pythonStr other) cost

/-- The recovery chain after `json.loads`: `JSONDecodeError` falls back to
the trimmed raw output truncated to 2000 with cost zero; a parsed non-object
raises `AttributeError` on `.get`; an object reads `result` (defaulting to
the JSON text itself) and `cost_usd` (defaulting to zero). -/
def recover_from_json : Option Json → String → String → ParseOutcome
  | none, raw, _ => ParseOutcome.ok (pytake raw 2000) (Json.num 0)
  | some (Json.obj fs), _, json_str =>
    recover_result ((jlookup fs "result").getD (Json.str json_str))
      ((jlookup fs "cost_usd").getD (Json.num 0))
  | some _, _, _ => ParseOutcome.pyError "AttributeError: .get on a non-dict"

/-- The full stdout recovery of `invoke_claude` for a zero exit code:
strip, locate the JSON document, `json.loads`, then the fallback chain. -/
def parse_claude_stdout (stdoutRaw : String) : ParseOutcome :=
  recover_from_json (json_loads (extract_json_str (pstrip stdoutRaw)))
    (pstrip stdoutRaw) (extract_json_str (pstrip stdoutRaw))

/-- The `result` value is one the extraction chain handles without raising. -/
def resultSafe : Json → Bool
  | Json.obj rfs =>
    match iterElems ((jlookup rfs "payloads").getD (Json.arr [])) with
    | none => false
    | some elems =>
      (elems.filterMap textFragOf).isEmpty
        || ((elems.filterMap textFragOf).mapM asStr).isSome
  | _ => true

/-- The shapes of a parsed document on which the recovery chain terminates
normally. -/
def safe_from_json : Option Json → String → Bool
  | none, _ => true
  | some (Json.obj fs), json_str =>
    resultSafe ((jlookup fs "result").getD (Json.str json_str))
  | some _, _ => false

/-- The stdout shapes on which the recovery chain terminates normally:
no JSON parses at all, or the document is an object whose `result` value is
safe to extract from. -/
def stdoutSafe (stdoutRaw : String) : Bool :=
  safe_from_json (json_loads (extract_json_str (pstrip stdoutRaw)))
    (extract_json_str (pstrip stdoutRaw))

/-- Did the recovery produce a response text? -/
def ParseOutcome.isOk : ParseOutcome → Bool
  | ParseOutcome.ok _ _ => true
  | ParseOutcome.pyError _ => false

/-! ## CLI invocation around the subprocess (`invoke_claude`, C6)

The subprocess phase is embedded as the list of session-mutating /
process-level effects the source performs together with its returned dict,
as a function of the stored handle, store availability, and the subprocess
outcome. -/

/-- Side effects `invoke_claude` can perform around the subprocess. -/
inductive IEffect where
  | dbSetHandle (sid handle : String)
  | spawn (cmd : List String)
  | killProc
  deriving DecidableEq, Repr

/-- Outcome of the spawned subprocess: exit within the timeout, or still
running when the wall-clock timeout elapses (`asyncio.TimeoutError`). -/
inductive ProcOutcome where
  | exits (rc : Int) (stdout stderr : String)
  | hangs
  deriving DecidableEq, Repr

/-- The dict `invoke_claude` returns. -/
structure ClaudeResult where
  response : Option String
  error : Option String
  cost_usd : Json
  claude_session_id : String

/-- The argument list built for the Claude CLI (list-based, never a shell
string). -/
def claudeCmd (claude_sid message : String) (resume : Bool) : List String :=
  ["claude", "-p", "--output-format", "json", "--session-id", claude_sid]
    ++ (if resume then ["--resume"] else [message])

/-- `invoke_claude(message, session_id, resume)`: use the stored conversation
handle if present, else mint one (persisting it only when the store is
healthy); spawn the CLI; then branch on the subprocess outcome.  On
`asyncio.TimeoutError` the source returns a timeout error dict without any
further effect — in particular it never calls `proc.kill()`. -/
def invoke_claude (storedHandle : Option String) (st : StoreState)
    (freshHandle message session_id : String) (resume : Bool) (timeoutS : Nat)
    (outcome : ProcOutcome) : List IEffect × ClaudeResult :=
  let minted := storedHandle.isNone
  let claude_sid := storedHandle.getD freshHandle
  let preEffects : List IEffect :=
    if minted then
      match st with
      | StoreState.healthy => [IEffect.dbSetHandle session_id freshHandle]
      | _ => []  -- store down, or the UPDATE raised and was rolled back
    else []
  let effects := preEffects ++ [IEffect.spawn (claudeCmd claude_sid message resume)]
  match outcome with
  | ProcOutcome.hangs =>
    (effects,
      { response := none
        error := some ("Timeout after " ++ toString timeoutS ++ "s")
        cost_usd := Json.num 0, claude_session_id := claude_sid })
  | ProcOutcome.exits rc stdout stderr =>
    if rc ≠ 0 then
      (effects,
        { response := none, error := some (pytake (pstrip stderr) 500)
          cost_usd := Json.num 0, claude_session_id := claude_sid })
    else
      match parse_claude_stdout stdout with
      | ParseOutcome.ok resp cost =>
        (effects,
          { response := some resp, error := none
            cost_usd := cost, claude_session_id := claude_sid })
      | ParseOutcome.pyError m =>
        (effects,
          { response := none, error := some m
            cost_usd := Json.num 0, claude_session_id := claude_sid })

/-! ## Helper lemmas on the rate-counter association list -/

/-- Keys of the `_rate_counts` map. -/
def rcKeys (rc : RateCounts) : List String :=
  rc.map Prod.fst

theorem rcGet_rcSet_self (rc : RateCounts) (c : String) (l : List Int) :
    rcGet (rcSet rc c l) c = l := by
  induction rc with
  | nil => simp [rcSet, rcGet]
  | cons kv rest ih =>
    by_cases h : kv.1 = c
    · simp [rcSet, rcGet, h]
    · simpa [rcSet, rcGet, h] using ih

theorem rcGet_rcSet_ne (rc : RateCounts) (c c1 : String) (l : List Int) (h : c1 ≠ c) :
    rcGet (rcSet rc c l) c1 = rcGet rc c1 := by
  induction rc with
  | nil =>
    have hcc : ¬(c = c1) := fun e => h e.symm
    simp [rcSet, rcGet, hcc]
  | cons kv rest ih =>
    obtain ⟨k, v⟩ := kv
    by_cases hk : k = c
    · subst hk
      have hcc : ¬(k = c1) := fun e => h e.symm
      simp [rcSet, rcGet, hcc]
    · by_cases hk1 : k = c1
      · simp [rcSet, rcGet, hk, hk1, h]
      · simp [rcSet, rcGet, hk, hk1, ih]

theorem mem_rcKeys_rcSet (rc : RateCounts) (c : String) (l : List Int) (x : String) :
    x ∈ rcKeys (rcSet rc c l) ↔ x = c ∨ x ∈ rcKeys rc := by
  induction rc with
  | nil => simp [rcSet, rcKeys]
  | cons kv rest ih =>
    obtain ⟨k, v⟩ := kv
    by_cases hk : k = c
    · subst hk
      simp [rcSet, rcKeys]
    · simp only [rcSet, hk, if_false, rcKeys, List.map_cons, List.mem_cons] at ih ⊢
      rw [ih]
      tauto

theorem rcKeys_rcSet_nodup (rc : RateCounts) (c : String) (l : List Int)
    (h : (rcKeys rc).Nodup) : (rcKeys (rcSet rc c l)).Nodup := by
  induction rc with
  | nil => simp [rcSet, rcKeys]
  | cons kv rest ih =>
    obtain ⟨k, v⟩ := kv
    simp only [rcKeys, List.map_cons, List.nodup_cons] at h
    by_cases hk : k = c
    · subst hk
      simpa [rcSet, rcKeys] using h
    · simp only [rcSet, hk, if_false, rcKeys, List.map_cons, List.nodup_cons]
      refine ⟨fun hmem => ?_, ih h.2⟩
      rcases (mem_rcKeys_rcSet rest c l k).mp hmem with he | hmem2
      · exact hk he
      · exact h.1 hmem2

theorem rcGet_eq_nil_of_not_mem (rc : RateCounts) (c : String) (h : c ∉ rcKeys rc) :
    rcGet rc c = [] := by
  induction rc with
  | nil => rfl
  | cons kv rest ih =>
    obtain ⟨k, v⟩ := kv
    simp only [rcKeys, List.map_cons, List.mem_cons] at h
    push_neg at h
    have hne : ¬(k = c) := fun e => h.1 e.symm
    simpa [rcGet, hne] using ih (by simpa [rcKeys] using h.2)

theorem totalCalls_eq_sum_keys (rc : RateCounts) (h : (rcKeys rc).Nodup) :
    totalCalls rc = ((rcKeys rc).map (fun k => (rcGet rc k).length)).sum := by
  induction rc with
  | nil => rfl
  | cons kv rest ih =>
    simp only [rcKeys, List.map_cons, List.nodup_cons] at h
    have hrest := ih (by simpa [rcKeys] using h.2)
    have hmap : (rcKeys rest).map (fun k => (rcGet ((kv.1, kv.2) :: rest) k).length)
        = (rcKeys rest).map (fun k => (rcGet rest k).length) := by
      apply List.map_congr_left
      intro k hk
      have : kv.1 ≠ k := by
        intro e
        exact h.1 (by simpa [rcKeys, e] using hk)
      simp [rcGet, this]
    calc totalCalls ((kv.1, kv.2) :: rest)
        = kv.2.length + totalCalls rest := by simp [totalCalls]
      _ = (rcGet ((kv.1, kv.2) :: rest) kv.1).length
            + ((rcKeys rest).map (fun k => (rcGet ((kv.1, kv.2) :: rest) k).length)).sum := by
          rw [hmap, ← hrest]; simp [rcGet]
      _ = _ := by simp [rcKeys]

/-! ## Helper lemmas relating accepted-call traces to the counter state -/

/-- Timestamps of the accepted calls of one caller, in order. -/
def acceptedTimes (acc : List CallReq) (c : String) : List Int :=
  (acc.filter (fun r => r.caller == c)).map (fun r => r.time)

theorem countP_caller_eq (acc : List CallReq) (c : String) (w : Int → Bool) :
    acc.countP (fun r => r.caller == c && w r.time)
      = ((acceptedTimes acc c).filter w).length := by
  rw [acceptedTimes, ← List.countP_eq_length_filter, List.countP_map, List.countP_filter]
  exact List.countP_congr (by intro r _; simp [Bool.and_comm, Function.comp])

theorem sum_map_add_nat {α : Type} (l : List α) (f g : α → ℕ) :
    (l.map (fun x => f x + g x)).sum = (l.map f).sum + (l.map g).sum := by
  induction l with
  | nil => rfl
  | cons x xs ih => simp [ih]; omega

theorem countP_le_sum_over_keys (acc : List CallReq) (keys : List String) (w : Int → Bool)
    (hcov : ∀ r ∈ acc, w r.time = true → r.caller ∈ keys) :
    acc.countP (fun r => w r.time)
      ≤ (keys.map (fun k => acc.countP (fun r => r.caller == k && w r.time))).sum := by
  induction acc with
  | nil => simp
  | cons r acc ih =>
    have ihh := ih (fun x hx hw => hcov x (List.mem_cons_of_mem r hx) hw)
    have hsplit : (keys.map (fun k => List.countP (fun x => x.caller == k && w x.time) (r :: acc))).sum
        = (keys.map (fun k => List.countP (fun x => x.caller == k && w x.time) acc)).sum
          + (keys.map (fun k => if (r.caller == k && w r.time) = true then 1 else 0)).sum := by
      rw [← sum_map_add_nat]
      apply congrArg
      apply List.map_congr_left
      intro k _
      rw [List.countP_cons]
    rw [List.countP_cons, hsplit]
    by_cases hw : w r.time = true
    · have hmem : r.caller ∈ keys := hcov r (List.mem_cons_self r acc) hw
      have hone : 1 ≤ (keys.map (fun k => if (r.caller == k && w r.time) = true then 1 else 0)).sum := by
        have hx : (if (r.caller == r.caller && w r.time) = true then 1 else 0)
            ∈ keys.map (fun k => if (r.caller == k && w r.time) = true then 1 else 0) :=
          List.mem_map_of_mem _ hmem
        have : (if (r.caller == r.caller && w r.time) = true then 1 else 0) = 1 := by
          simp [hw]
        rw [this] at hx
        exact List.single_le_sum (fun x _ => Nat.zero_le x) 1 hx
      rw [if_pos hw]
      omega
    · rw [if_neg hw]
      omega

/-! ## The gate invariant: counter state vs. the accepted trace -/

/-- The inductive invariant after processing requests up to wall-clock time
`tcur` with accepted trace `acc`: counter keys are unique, and every caller's
stored list is exactly its accepted timestamps above some cutoff at least one
hour old. -/
def GateInv (tcur : Int) (acc : List CallReq) (rc : RateCounts) : Prop :=
  (rcKeys rc).Nodup ∧
  ∀ c : String, ∃ K : Int, K ≤ tcur - 3600 ∧
    rcGet rc c = (acceptedTimes acc c).filter (fun s => decide (K < s))

theorem gateInv_nil (t0 : Int) : GateInv t0 [] [] :=
  ⟨List.nodup_nil, fun _ => ⟨t0 - 3600, le_refl _, by simp [rcGet, acceptedTimes]⟩⟩

theorem gateInv_mono {tcur t : Int} {acc : List CallReq} {rc : RateCounts}
    (h : GateInv tcur acc rc) (ht : tcur ≤ t) : GateInv t acc rc := by
  refine ⟨h.1, fun c => ?_⟩
  obtain ⟨K, hK, he⟩ := h.2 c
  exact ⟨K, by omega, he⟩

theorem filter_filter_window (ats : List Int) (K T : Int) (hK : K ≤ T) :
    (ats.filter (fun s => decide (K < s))).filter (fun s => decide (T < s))
      = ats.filter (fun s => decide (T < s)) := by
  rw [List.filter_filter]
  apply List.filter_congr
  intro s _
  by_cases hs : T < s
  · simp [hs, show K < s by omega]
  · simp [hs]

theorem gateInv_prune {tcur t : Int} {acc : List CallReq} {rc : RateCounts} (c0 : String)
    (h : GateInv tcur acc rc) (ht : tcur ≤ t) :
    GateInv t acc (prune rc c0 t)
    ∧ rcGet (prune rc c0 t) c0
        = (acceptedTimes acc c0).filter (fun s => decide (t - 3600 < s)) := by
  obtain ⟨hnd, hK⟩ := h
  have hself : rcGet (prune rc c0 t) c0
      = (acceptedTimes acc c0).filter (fun s => decide (t - 3600 < s)) := by
    obtain ⟨K, hKle, he⟩ := hK c0
    rw [prune, rcGet_rcSet_self, he, filter_filter_window _ K (t - 3600) (by omega)]
  refine ⟨⟨?_, fun c => ?_⟩, hself⟩
  · rw [prune]
    exact rcKeys_rcSet_nodup _ _ _ hnd
  · by_cases hc : c = c0
    · subst hc
      exact ⟨t - 3600, le_refl _, hself⟩
    · obtain ⟨K, hKle, he⟩ := hK c
      refine ⟨K, by omega, ?_⟩
      rw [prune, rcGet_rcSet_ne _ _ _ _ hc, he]

theorem acceptedTimes_append (acc : List CallReq) (r : CallReq) (c : String) :
    acceptedTimes (acc ++ [r]) c
      = acceptedTimes acc c ++ (if r.caller == c then [r.time] else []) := by
  by_cases h : r.caller == c <;>
    simp [acceptedTimes, List.filter_append, h]

theorem gateInv_accept {tcur : Int} {acc : List CallReq} {rc : RateCounts} (r : CallReq)
    (h : GateInv tcur acc rc) (ht : tcur ≤ r.time) :
    GateInv r.time (acc ++ [r]) (record_call (prune rc r.caller r.time) r.caller r.time) := by
  obtain ⟨hInv1, hself⟩ := gateInv_prune r.caller h ht
  refine ⟨?_, fun c => ?_⟩
  · rw [record_call]
    exact rcKeys_rcSet_nodup _ _ _ hInv1.1
  · by_cases hc : c = r.caller
    · subst hc
      refine ⟨r.time - 3600, le_refl _, ?_⟩
      rw [record_call, rcGet_rcSet_self, hself, acceptedTimes_append]
      simp [List.filter_append, show r.time - 3600 < r.time by omega]
    · obtain ⟨K, hKle, he⟩ := hInv1.2 c
      refine ⟨K, hKle, ?_⟩
      rw [record_call, rcGet_rcSet_ne _ _ _ _ hc, he, acceptedTimes_append]
      have hb : (r.caller == c) = false :=
        beq_eq_false_iff_ne.mpr (fun e => hc e.symm)
      simp [hb]

theorem global_window_le_totalCalls (acc : List CallReq) (rc : RateCounts) (T : Int)
    (hnd : (rcKeys rc).Nodup)
    (hK : ∀ c, ∃ K, K ≤ T - 3600 ∧
      rcGet rc c = (acceptedTimes acc c).filter (fun s => decide (K < s))) :
    acc.countP (fun r => decide (T - 3600 < r.time)) ≤ totalCalls rc := by
  have hcov : ∀ r ∈ acc, decide (T - 3600 < r.time) = true → r.caller ∈ rcKeys rc := by
    intro r hr hw
    by_contra hmem
    have hnil := rcGet_eq_nil_of_not_mem rc r.caller hmem
    obtain ⟨K, hKle, he⟩ := hK r.caller
    rw [hnil] at he
    have hin : r.time ∈ (acceptedTimes acc r.caller).filter (fun s => decide (K < s)) := by
      rw [List.mem_filter]
      refine ⟨?_, by simp only [decide_eq_true_eq] at hw ⊢; omega⟩
      simp only [acceptedTimes, List.mem_map]
      exact ⟨r, List.mem_filter.mpr ⟨hr, by simp⟩, rfl⟩
    rw [← he] at hin
    simp at hin
  calc acc.countP (fun r => decide (T - 3600 < r.time))
      ≤ ((rcKeys rc).map
          (fun k => acc.countP (fun r => r.caller == k && decide (T - 3600 < r.time)))).sum :=
        countP_le_sum_over_keys acc (rcKeys rc) (fun t => decide (T - 3600 < t)) hcov
    _ ≤ ((rcKeys rc).map (fun k => (rcGet rc k).length)).sum := by
        apply List.sum_le_sum
        intro k _
        obtain ⟨K, hKle, he⟩ := hK k
        have h1 : acc.countP (fun r => r.caller == k && decide (T - 3600 < r.time))
            = ((acceptedTimes acc k).filter (fun s => decide (T - 3600 < s))).length :=
          countP_caller_eq acc k (fun t => decide (T - 3600 < t))
        rw [h1, he, ← List.countP_eq_length_filter, ← List.countP_eq_length_filter]
        apply List.countP_mono_left
        intro s _ hs
        simp only [decide_eq_true_eq] at hs ⊢
        omega
    _ = totalCalls rc := (totalCalls_eq_sum_keys rc hnd).symm

/-! ## Per-acceptance bounds and the step lemmas -/

/-- What the gate guarantees at the moment it accepts call `a`: fewer than
the caller's ceiling of the already-accepted calls of that caller lie in the
hour before `a`, and fewer than the global ceiling of all already-accepted
calls do. -/
def AcceptBounds (p : Policy) (xs : List CallReq) (a : CallReq) : Prop :=
  xs.countP (fun r => r.caller == a.caller && decide (a.time - 3600 < r.time))
      < agentCeiling p a.caller
  ∧ xs.countP (fun r => decide (a.time - 3600 < r.time)) < globalCeiling p

theorem check_rate_limit_snd (p : Policy) (rc : RateCounts) (c : String) (now : Int) :
    (check_rate_limit p rc c now).2 = prune rc c now := by
  rw [check_rate_limit]
  split_ifs <;> rfl

theorem enforce_policy_snd (p : Policy) (rc : RateCounts) (hour : Nat)
    (c ep pr : String) (now : Int) :
    (enforce_policy p rc hour c ep pr now).2 = rc
    ∨ (enforce_policy p rc hour c ep pr now).2 = prune rc c now := by
  rw [enforce_policy]
  split_ifs <;> simp [check_rate_limit_snd]

theorem enforce_policy_none_bounds (p : Policy) (rc : RateCounts) (hour : Nat)
    (c ep pr : String) (now : Int)
    (h : (enforce_policy p rc hour c ep pr now).1 = none) :
    (enforce_policy p rc hour c ep pr now).2 = prune rc c now
    ∧ (rcGet (prune rc c now) c).length < agentCeiling p c
    ∧ totalCalls (prune rc c now) < globalCeiling p := by
  rw [enforce_policy] at h ⊢
  by_cases h1 : (is_quiet_hours p hour && !(pr == "critical")
      && !((get_agent_limits p c).quiet_hours_exempt.getD false || c == "dashboard")) = true
  · rw [if_pos h1] at h
    simp at h
  · rw [if_neg h1] at h ⊢
    by_cases h2 : (check_rate_limit p rc c now).1.1 = false
    · rw [if_pos h2] at h
      simp at h
    · rw [if_neg h2] at h ⊢
      have h2t : (check_rate_limit p rc c now).1.1 = true := by
        cases hb : (check_rate_limit p rc c now).1.1
        · exact absurd hb h2
        · rfl
      have hbounds : (rcGet (prune rc c now) c).length < agentCeiling p c
          ∧ totalCalls (prune rc c now) < globalCeiling p := by
        rw [check_rate_limit] at h2t
        split_ifs at h2t with hg ha
        exact ⟨by omega, by omega⟩
      by_cases h3 : pr ∈ (get_agent_limits p c).priority_levels.getD ["low", "normal"]
      · rw [if_pos h3]
        exact ⟨by simp [check_rate_limit_snd], hbounds.1, hbounds.2⟩
      · rw [if_neg h3] at h
        simp at h

theorem gateStep_denied {p : Policy} {hour : Nat} {tcur : Int}
    {acc : List CallReq} {rc : RateCounts} {r : CallReq} {e : String} {rc1 : RateCounts}
    (h : GateInv tcur acc rc) (ht : tcur ≤ r.time)
    (hstep : gateStep p hour rc r = (some e, rc1)) :
    GateInv r.time acc rc1 := by
  rw [gateStep] at hstep
  have h1 : (enforce_policy p rc hour r.caller "/claude/ask" r.priority r.time).1 = some e :=
    congrArg Prod.fst hstep
  have h2 : rc1 = (enforce_policy p rc hour r.caller "/claude/ask" r.priority r.time).2 := by
    have hs := congrArg Prod.snd hstep
    rw [h1] at hs
    simpa using hs.symm
  rcases enforce_policy_snd p rc hour r.caller "/claude/ask" r.priority r.time with hs | hs
  · rw [h2, hs]
    exact gateInv_mono h ht
  · rw [h2, hs]
    exact (gateInv_prune r.caller h ht).1

theorem gateStep_accepted {p : Policy} {hour : Nat} {tcur : Int}
    {acc : List CallReq} {rc : RateCounts} {r : CallReq} {rc1 : RateCounts}
    (h : GateInv tcur acc rc) (ht : tcur ≤ r.time)
    (hstep : gateStep p hour rc r = (none, rc1)) :
    GateInv r.time (acc ++ [r]) rc1 ∧ AcceptBounds p acc r := by
  rw [gateStep] at hstep
  have h1 : (enforce_policy p rc hour r.caller "/claude/ask" r.priority r.time).1 = none :=
    congrArg Prod.fst hstep
  obtain ⟨hsnd, hagent, hglobal⟩ :=
    enforce_policy_none_bounds p rc hour r.caller "/claude/ask" r.priority r.time h1
  have h2 : rc1 = record_call (prune rc r.caller r.time) r.caller r.time := by
    have hs := congrArg Prod.snd hstep
    rw [h1] at hs
    simp only [if_pos rfl] at hs
    rw [hsnd] at hs
    exact hs.symm
  obtain ⟨hInv1, hself⟩ := gateInv_prune r.caller h ht
  constructor
  · rw [h2]
    exact gateInv_accept r h ht
  · constructor
    · calc acc.countP (fun x => x.caller == r.caller && decide (r.time - 3600 < x.time))
          = ((acceptedTimes acc r.caller).filter (fun s => decide (r.time - 3600 < s))).length :=
            countP_caller_eq acc r.caller (fun t => decide (r.time - 3600 < t))
        _ = (rcGet (prune rc r.caller r.time) r.caller).length := by rw [hself]
        _ < agentCeiling p r.caller := hagent
    · exact lt_of_le_of_lt
        (global_window_le_totalCalls acc (prune rc r.caller r.time) r.time hInv1.1 hInv1.2)
        hglobal

/-! ## The main trace induction -/

/-- Wall-clock time after processing a request list. -/
def endTime : Int → List CallReq → Int
  | t, [] => t
  | _, r :: rs => endTime r.time rs

/-- Every accepted call in `A` was checked against fewer than the relevant
ceilings among the accepted calls before it (`acc` is the already-accepted
prefix). -/
def GoodFrom (p : Policy) (acc : List CallReq) (A : List CallReq) : Prop :=
  ∀ xs a ys, A = xs ++ a :: ys → AcceptBounds p (acc ++ xs) a

theorem runGate_main (p : Policy) (hour : Nat) :
    ∀ (reqs : List CallReq) (rc : RateCounts) (acc : List CallReq) (tcur : Int),
      GateInv tcur acc rc → TimesMono tcur reqs →
      GoodFrom p acc (runGate p hour rc reqs).1
      ∧ GateInv (endTime tcur reqs) (acc ++ (runGate p hour rc reqs).1)
          (runGate p hour rc reqs).2 := by
  intro reqs
  induction reqs with
  | nil =>
    intro rc acc tcur hInv _
    refine ⟨fun xs a ys hsplit => absurd hsplit (by simp [runGate]), ?_⟩
    simpa [runGate, endTime] using hInv
  | cons r rs ih =>
    intro rc acc tcur hInv hMono
    obtain ⟨ht, hMono1⟩ := hMono
    rcases hG : gateStep p hour rc r with ⟨o, rc1⟩
    cases o with
    | none =>
      obtain ⟨hInvNext, hBounds⟩ := gateStep_accepted hInv ht hG
      have hih := ih rc1 (acc ++ [r]) r.time hInvNext hMono1
      have hrun : runGate p hour rc (r :: rs)
          = (r :: (runGate p hour rc1 rs).1, (runGate p hour rc1 rs).2) := by
        simp [runGate, hG]
      rw [hrun]
      constructor
      · intro xs a ys hsplit
        cases xs with
        | nil =>
          simp only [List.nil_append] at hsplit ⊢
          have ha : r = a := (List.cons_eq_cons.mp hsplit).1
          simpa [← ha] using hBounds
        | cons x xs1 =>
          simp only [List.cons_append] at hsplit
          obtain ⟨hx, hrest⟩ := List.cons_eq_cons.mp hsplit
          have hb := hih.1 xs1 a ys hrest
          rw [← hx]
          simpa [List.append_assoc] using hb
      · have hb := hih.2
        simpa [endTime, List.append_assoc] using hb
    | some e =>
      have hInvNext := gateStep_denied hInv ht hG
      have hih := ih rc1 acc r.time hInvNext hMono1
      have hrun : runGate p hour rc (r :: rs) = runGate p hour rc1 rs := by
        simp [runGate, hG]
      rw [hrun]
      simpa [endTime] using hih

theorem runGate_sublist (p : Policy) (hour : Nat) :
    ∀ (reqs : List CallReq) (rc : RateCounts), (runGate p hour rc reqs).1.Sublist reqs := by
  intro reqs
  induction reqs with
  | nil => intro rc; simp [runGate]
  | cons r rs ih =>
    intro rc
    rcases hG : gateStep p hour rc r with ⟨o, rc1⟩
    cases o with
    | none =>
      have hrun : runGate p hour rc (r :: rs)
          = (r :: (runGate p hour rc1 rs).1, (runGate p hour rc1 rs).2) := by
        simp [runGate, hG]
      rw [hrun]
      exact List.Sublist.cons₂ r (ih rc1)
    | some e =>
      have hrun : runGate p hour rc (r :: rs) = runGate p hour rc1 rs := by
        simp [runGate, hG]
      rw [hrun]
      exact List.Sublist.cons r (ih rc1)

/-! ## From per-acceptance bounds to trailing-window bounds -/

theorem timesMono_weaken {t t1 : Int} {l : List CallReq}
    (h : t ≤ t1) (hm : TimesMono t1 l) : TimesMono t l := by
  cases l with
  | nil => trivial
  | cons r rs => exact ⟨le_trans h hm.1, hm.2⟩

theorem timesMono_sublist {l1 l2 : List CallReq} (hs : l1.Sublist l2) :
    ∀ {t : Int}, TimesMono t l2 → TimesMono t l1 := by
  induction hs with
  | slnil => intro t _; trivial
  | cons a _ ih => intro t hm; exact timesMono_weaken hm.1 (ih hm.2)
  | cons₂ a _ ih => intro t hm; exact ⟨hm.1, ih hm.2⟩

theorem timesMono_le_mem {t : Int} {l : List CallReq} (h : TimesMono t l) :
    ∀ r ∈ l, t ≤ r.time := by
  induction l generalizing t with
  | nil => intro r hr; simp at hr
  | cons x xs ih =>
    intro r hr
    rcases List.mem_cons.mp hr with he | hm
    · exact he ▸ h.1
    · exact le_trans h.1 (ih h.2 r hm)

theorem timesMono_append_left {t : Int} {l1 l2 : List CallReq}
    (h : TimesMono t (l1 ++ l2)) : TimesMono t l1 := by
  induction l1 generalizing t with
  | nil => trivial
  | cons x xs ih => exact ⟨h.1, ih h.2⟩

theorem timesMono_last {t : Int} {G : List CallReq} {a : CallReq}
    (h : TimesMono t (G ++ [a])) : ∀ r ∈ G, r.time ≤ a.time := by
  induction G generalizing t with
  | nil => intro r hr; simp at hr
  | cons g G1 ih =>
    intro r hr
    rcases List.mem_cons.mp hr with he | hm
    · subst he
      exact timesMono_le_mem h.2 a (by simp)
    · exact ih h.2 r hm

theorem goodFrom_append_left {p : Policy} {acc G : List CallReq} {a : CallReq}
    (h : GoodFrom p acc (G ++ [a])) : GoodFrom p acc G := by
  intro xs b ys hsplit
  exact h xs b (ys ++ [a]) (by rw [hsplit]; simp)

theorem window_bounds_of_good (p : Policy) (t0 : Int) (F : List CallReq)
    (hmono : TimesMono t0 F) (hgood : GoodFrom p [] F) (T : Int) (c : String) :
    F.countP (fun r => r.caller == c && decide (T - 3600 < r.time) && decide (r.time ≤ T))
        ≤ agentCeiling p c
    ∧ F.countP (fun r => decide (T - 3600 < r.time) && decide (r.time ≤ T))
        ≤ globalCeiling p := by
  revert hmono hgood
  induction F using List.reverseRecOn with
  | nil =>
    intro _ _
    constructor <;> simp
  | append_singleton G a ihG =>
    intro hmono hgood
    have hmonoG := timesMono_append_left hmono
    have hgoodG := goodFrom_append_left hgood
    have hG_le_a := timesMono_last hmono
    have hbounds : AcceptBounds p G a := by
      have hb := hgood G a [] rfl
      simpa using hb
    have ih := ihG hmonoG hgoodG
    constructor
    · rw [List.countP_append]
      by_cases hpa : (a.caller == c && decide (T - 3600 < a.time) && decide (a.time ≤ T)) = true
      · have h1 : List.countP
            (fun r => r.caller == c && decide (T - 3600 < r.time) && decide (r.time ≤ T)) [a]
            = 1 := by
          simp only [List.countP_cons, List.countP_nil, hpa]
          rfl
        simp only [Bool.and_eq_true, beq_iff_eq, decide_eq_true_eq] at hpa
        obtain ⟨⟨hac, hT1⟩, hT2⟩ := hpa
        subst hac
        have hmonoCount : G.countP
              (fun r => r.caller == a.caller && decide (T - 3600 < r.time) && decide (r.time ≤ T))
            ≤ G.countP (fun r => r.caller == a.caller && decide (a.time - 3600 < r.time)) := by
          apply List.countP_mono_left
          intro r _ hr
          simp only [Bool.and_eq_true, beq_iff_eq, decide_eq_true_eq] at hr ⊢
          exact ⟨hr.1.1, by omega⟩
        have hlt := hbounds.1
        rw [h1]
        omega
      · have h1 : List.countP
            (fun r => r.caller == c && decide (T - 3600 < r.time) && decide (r.time ≤ T)) [a]
            = 0 := by
          simp only [List.countP_cons, List.countP_nil, hpa]
          rfl
        rw [h1]
        simpa using ih.1
    · rw [List.countP_append]
      by_cases hpa : (decide (T - 3600 < a.time) && decide (a.time ≤ T)) = true
      · have h1 : List.countP (fun r => decide (T - 3600 < r.time) && decide (r.time ≤ T)) [a]
            = 1 := by
          simp only [List.countP_cons, List.countP_nil, hpa]
          rfl
        simp only [Bool.and_eq_true, decide_eq_true_eq] at hpa
        obtain ⟨hT1, hT2⟩ := hpa
        have hmonoCount : G.countP (fun r => decide (T - 3600 < r.time) && decide (r.time ≤ T))
            ≤ G.countP (fun r => decide (a.time - 3600 < r.time)) := by
          apply List.countP_mono_left
          intro r _ hr
          simp only [Bool.and_eq_true, decide_eq_true_eq] at hr ⊢
          omega
        have hlt := hbounds.2
        rw [h1]
        omega
      · have h1 : List.countP (fun r => decide (T - 3600 < r.time) && decide (r.time ≤ T)) [a]
            = 0 := by
          simp only [List.countP_cons, List.countP_nil, hpa]
          rfl
        rw [h1]
        simpa using ih.2

/-! ## Concrete scenario configurations -/

/-- Per-agent limits of the scenario caller `c1`: hourly ceiling 5,
`critical` allowed. -/
def scnAgent : AgentLimits :=
  { calls_per_hour := some 5
    max_cost_per_call_usd := none
    allowed_targets := none
    priority_levels := some ["low", "normal", "critical"]
    quiet_hours_exempt := none }

/-- Scenario policy: caller `c1` configured as above, quiet hours
23:00-08:00, all other fields defaulted. -/
def scnPolicy : Policy :=
  { per_agent := [("c1", scnAgent)]
    global_calls_per_hour := none
    quiet_start := some "23:00"
    quiet_end := some "08:00"
    event_webhooks := []
    audit_log_to_jsonl := none }

/-- Six calls by `c1` within one minute. -/
def scnReqs : List CallReq :=
  [⟨"c1", "normal", 0⟩, ⟨"c1", "normal", 10⟩, ⟨"c1", "normal", 20⟩,
   ⟨"c1", "normal", 30⟩, ⟨"c1", "normal", 40⟩, ⟨"c1", "normal", 50⟩]

/-- Policy with a global ceiling of 2 and caller `A` unconstrained enough. -/
def pG9 : Policy :=
  { per_agent := [("A", scnAgent)]
    global_calls_per_hour := some 2
    quiet_start := none
    quiet_end := none
    event_webhooks := []
    audit_log_to_jsonl := none }

/-- Two calls by `A`, both more than an hour before time 10000. -/
def reqs9 : List CallReq :=
  [⟨"A", "normal", 0⟩, ⟨"A", "normal", 1⟩]

/-! ## String disambiguation of the denial messages -/

theorem head_append (s t : String) : (s ++ t).data.head? = s.data.head?.or t.data.head? := by
  rw [String.data_append, List.head?_append]

theorem quietMsg_head : quietMsg.data.head? = some 'Q' := rfl

theorem globalRateMsg_head (n : Nat) : (globalRateMsg n).data.head? = some 'G' := by
  rw [globalRateMsg, head_append, head_append]
  rfl

theorem agentRateMsg_head (c : String) (n : Nat) : (agentRateMsg c n).data.head? = some 'A' := by
  rw [agentRateMsg]
  repeat rw [head_append]
  rfl

theorem priorityMsg_head (c pr : String) (ps : List String) :
    (priorityMsg c pr ps).data.head? = some 'A' := by
  rw [priorityMsg]
  repeat rw [head_append]
  rfl

theorem globalRateMsg_ne_quietMsg (n : Nat) : globalRateMsg n ≠ quietMsg := by
  intro he
  have h1 := globalRateMsg_head n
  rw [he, quietMsg_head] at h1
  exact absurd h1 (by decide)

theorem agentRateMsg_ne_quietMsg (c : String) (n : Nat) : agentRateMsg c n ≠ quietMsg := by
  intro he
  have h1 := agentRateMsg_head c n
  rw [he, quietMsg_head] at h1
  exact absurd h1 (by decide)

theorem priorityMsg_ne_quietMsg (c pr : String) (ps : List String) :
    priorityMsg c pr ps ≠ quietMsg := by
  intro he
  have h1 := priorityMsg_head c pr ps
  rw [he, quietMsg_head] at h1
  exact absurd h1 (by decide)

/-! ## Claim theorems: C1, C9, C7 -/

/-- C1: for every caller and every trailing 60-minute window, the calls the
gate accepts (`enforce_policy` returning no denial, then `record_call`) never
exceed the caller's hourly ceiling, and across all callers never exceed the
global hourly ceiling; in particular caller `c1` with ceiling 5 issuing six
calls within a minute has calls 1-5 accepted and call 6 denied with the
per-agent rate-limit reason. -/
theorem rate_limit_window_invariant :
    (∀ (p : Policy) (hour : Nat) (t0 : Int) (reqs : List CallReq), TimesMono t0 reqs →
      ∀ (T : Int) (c : String),
        (runGate p hour [] reqs).1.countP
            (fun r => r.caller == c && decide (T - 3600 < r.time) && decide (r.time ≤ T))
          ≤ agentCeiling p c
        ∧ (runGate p hour [] reqs).1.countP
            (fun r => decide (T - 3600 < r.time) && decide (r.time ≤ T))
          ≤ globalCeiling p)
    ∧ (runGate scnPolicy 12 [] scnReqs).1 = scnReqs.take 5
    ∧ (gateStep scnPolicy 12 (runGate scnPolicy 12 [] (scnReqs.take 5)).2
        ⟨"c1", "normal", 50⟩).1 = some (agentRateMsg "c1" 5) := by
  refine ⟨?_, by decide, by decide⟩
  intro p hour t0 reqs hmono T c
  have hmain := runGate_main p hour reqs [] [] t0 (gateInv_nil t0) hmono
  have hmonoF := timesMono_sublist (runGate_sublist p hour reqs []) hmono
  exact window_bounds_of_good p t0 _ hmonoF hmain.1 T c

/-- Witness for C1: the bounds instantiated at the scenario policy, the six
scenario calls, window end 60 and caller `c1`. -/
theorem rate_limit_window_invariant_witness :
    (runGate scnPolicy 12 [] scnReqs).1.countP
        (fun r => r.caller == "c1" && decide ((60:Int) - 3600 < r.time) && decide (r.time ≤ 60))
      ≤ agentCeiling scnPolicy "c1" :=
  (rate_limit_window_invariant.1 scnPolicy 12 0 scnReqs (by decide) 60 "c1").1

/-- C9: `check_rate_limit` prunes only the requesting caller, so the global
count it computes is an over-approximation — it is always at least the true
number of accepted calls in the trailing hour (the global invariant stays
safe), and there are states where a fresh caller is denied on the global
limit solely because of stale hour-old entries of an idle caller. -/
theorem global_count_never_undercounts :
    (∀ (p : Policy) (hour : Nat) (t0 : Int) (reqs : List CallReq) (c0 : String) (T : Int),
      TimesMono t0 reqs → endTime t0 reqs ≤ T →
      (runGate p hour [] reqs).1.countP
          (fun r => decide (T - 3600 < r.time) && decide (r.time ≤ T))
        ≤ totalCalls (prune (runGate p hour [] reqs).2 c0 T))
    ∧ (gateStep pG9 12 (runGate pG9 12 [] reqs9).2 ⟨"B", "normal", 10000⟩).1
        = some (globalRateMsg 2)
    ∧ (runGate pG9 12 [] reqs9).1.countP
        (fun r => decide ((10000:Int) - 3600 < r.time) && decide (r.time ≤ 10000)) = 0 := by
  refine ⟨?_, by decide, by decide⟩
  intro p hour t0 reqs c0 T hmono hT
  have hmain := runGate_main p hour reqs [] [] t0 (gateInv_nil t0) hmono
  have hInvF := hmain.2
  rw [List.nil_append] at hInvF
  obtain ⟨hInvP, _⟩ := gateInv_prune c0 hInvF hT
  refine le_trans ?_ (global_window_le_totalCalls (runGate p hour [] reqs).1
      (prune (runGate p hour [] reqs).2 c0 T) T hInvP.1 hInvP.2)
  apply List.countP_mono_left
  intro r _ hr
  simp only [Bool.and_eq_true, decide_eq_true_eq] at hr ⊢
  exact hr.1

/-- Witness for C9: the over-approximation bound instantiated at the stale
state of `pG9` and the fresh caller `B` at time 10000. -/
theorem global_count_never_undercounts_witness :
    (runGate pG9 12 [] reqs9).1.countP
        (fun r => decide ((10000:Int) - 3600 < r.time) && decide (r.time ≤ 10000))
      ≤ totalCalls (prune (runGate pG9 12 [] reqs9).2 "B" 10000) :=
  global_count_never_undercounts.1 pG9 12 0 reqs9 "B" 10000 (by decide) (by decide)

/-- C7: `enforce_policy` denies with the quiet-hours message exactly when
quiet hours are active, the priority is not `critical`, and the caller is
neither flagged exempt nor the operator-console caller `dashboard`; with
quiet hours 23:00-08:00 a normal-priority call at 02:00 is denied and the
same call with `critical` priority succeeds. -/
theorem quiet_hours_denial_iff :
    (∀ (p : Policy) (rc : RateCounts) (hour : Nat) (caller ep pr : String) (now : Int),
      (enforce_policy p rc hour caller ep pr now).1 = some quietMsg ↔
        (is_quiet_hours p hour = true ∧ pr ≠ "critical"
          ∧ (get_agent_limits p caller).quiet_hours_exempt.getD false = false
          ∧ caller ≠ "dashboard"))
    ∧ (enforce_policy scnPolicy [] 2 "c1" "/claude/ask" "normal" 0).1 = some quietMsg
    ∧ (enforce_policy scnPolicy [] 2 "c1" "/claude/ask" "critical" 0).1 = none := by
  refine ⟨?_, by decide, by decide⟩
  intro p rc hour caller ep pr now
  constructor
  · intro h
    rw [enforce_policy] at h
    by_cases h1 : (is_quiet_hours p hour && !(pr == "critical")
        && !((get_agent_limits p caller).quiet_hours_exempt.getD false
              || caller == "dashboard")) = true
    · simp only [Bool.and_eq_true, Bool.not_eq_true', Bool.or_eq_false_iff,
        beq_eq_false_iff_ne] at h1
      exact ⟨h1.1.1, h1.1.2, h1.2.1, h1.2.2⟩
    · exfalso
      rw [if_neg h1] at h
      by_cases h2 : (check_rate_limit p rc caller now).1.1 = false
      · rw [if_pos h2] at h
        have hmsg : (check_rate_limit p rc caller now).1.2 = quietMsg := by
          simpa using h
        rw [check_rate_limit] at hmsg
        split_ifs at hmsg
        · exact globalRateMsg_ne_quietMsg _ hmsg
        · exact agentRateMsg_ne_quietMsg _ _ hmsg
        · have hok : ("ok" : String) = quietMsg := hmsg
          exact absurd hok (by decide)
      · rw [if_neg h2] at h
        by_cases h3 : pr ∈ (get_agent_limits p caller).priority_levels.getD ["low", "normal"]
        · rw [if_pos h3] at h
          simp at h
        · rw [if_neg h3] at h
          have hmsg : priorityMsg caller pr
              ((get_agent_limits p caller).priority_levels.getD ["low", "normal"]) = quietMsg := by
            simpa using h
          exact priorityMsg_ne_quietMsg _ _ _ hmsg
  · rintro ⟨hq, hcrit, hex, hdash⟩
    rw [enforce_policy]
    have h1 : (is_quiet_hours p hour && !(pr == "critical")
        && !((get_agent_limits p caller).quiet_hours_exempt.getD false
              || caller == "dashboard")) = true := by
      simp only [Bool.and_eq_true, Bool.not_eq_true', Bool.or_eq_false_iff,
        beq_eq_false_iff_ne]
      exact ⟨⟨hq, hcrit⟩, hex, hdash⟩
    rw [if_pos h1]

/-! ## Outbox drain lemmas (C2, C5) -/

/-- The per-row effect of one whole drain cycle. -/
def drainRow (post : Nat → PostResult) (now : Int) (tbl : List OEvent) (e : OEvent) : OEvent :=
  sweepRow ((attemptBatch post now (selectBatch tbl)).foldl replaceByUpdate e)

theorem applyUpdates_eq_map (ups : List OEvent) :
    ∀ tbl : List OEvent, applyUpdates tbl ups = tbl.map (fun e => ups.foldl replaceByUpdate e) := by
  induction ups with
  | nil => intro tbl; simp [applyUpdates, List.foldl]
  | cons u ups ih =>
    intro tbl
    have h1 : applyUpdates tbl (u :: ups) = applyUpdates (applyUpdate tbl u) ups := rfl
    rw [h1, ih, applyUpdate, List.map_map]
    rfl

theorem drainCycle_empty (post : Nat → PostResult) (now : Int) (tbl : List OEvent)
    (he : (selectBatch tbl).isEmpty = true) :
    drainCycle post now tbl = tbl := by
  rw [drainCycle, if_pos he]

theorem drainCycle_eq_map (post : Nat → PostResult) (now : Int) (tbl : List OEvent)
    (hne : (selectBatch tbl).isEmpty = false) :
    drainCycle post now tbl = tbl.map (drainRow post now tbl) := by
  rw [drainCycle, if_neg (by simp [hne]), applyUpdates_eq_map, sweepFailed, List.map_map]
  rfl

theorem foldl_replace_id (ups : List OEvent) :
    ∀ e : OEvent, (ups.foldl replaceByUpdate e).id = e.id := by
  induction ups with
  | nil => intro e; rfl
  | cons u ups ih =>
    intro e
    rw [List.foldl_cons, ih]
    rw [replaceByUpdate]
    by_cases h : e.id = u.id
    · rw [if_pos h, h]
    · rw [if_neg h]

theorem foldl_replace_no_match (ups : List OEvent) :
    ∀ e : OEvent, (∀ u ∈ ups, u.id ≠ e.id) → ups.foldl replaceByUpdate e = e := by
  induction ups with
  | nil => intro e _; rfl
  | cons u ups ih =>
    intro e h
    rw [List.foldl_cons, replaceByUpdate,
      if_neg (fun he => h u (List.mem_cons_self u ups) he.symm)]
    exact ih e (fun v hv => h v (List.mem_cons_of_mem u hv))

theorem foldl_replace_cases (ups : List OEvent) :
    ∀ e : OEvent, ups.foldl replaceByUpdate e = e ∨ ups.foldl replaceByUpdate e ∈ ups := by
  induction ups with
  | nil => intro e; exact Or.inl rfl
  | cons u ups ih =>
    intro e
    rw [List.foldl_cons]
    rcases ih (replaceByUpdate e u) with h | h
    · rw [h, replaceByUpdate]
      by_cases he : e.id = u.id
      · rw [if_pos he]; exact Or.inr (List.mem_cons_self u ups)
      · rw [if_neg he]; exact Or.inl rfl
    · exact Or.inr (List.mem_cons_of_mem u h)

theorem attemptBatch_elem (post : Nat → PostResult) (now : Int) :
    ∀ (bl : List OEvent) (u : OEvent), u ∈ attemptBatch post now bl →
      ∃ b ∈ bl, u.id = b.id ∧ (u = markDelivered now b ∨ ∃ err, u = bumpAttempt err b) := by
  intro bl
  induction bl with
  | nil => intro u hu; simp [attemptBatch] at hu
  | cons b rest ih =>
    intro u hu
    rw [attemptBatch] at hu
    rcases hp : post b.id with code | _ | m <;> rw [hp] at hu
    · have hu2 : u ∈ (if code < 400 then markDelivered now b :: attemptBatch post now rest
          else bumpAttempt ("HTTP " ++ toString code) b :: attemptBatch post now rest) := hu
      by_cases hc : code < 400
      · rw [if_pos hc] at hu2
        rcases List.mem_cons.mp hu2 with he | hm
        · exact ⟨b, List.mem_cons_self b rest, by rw [he]; rfl, Or.inl he⟩
        · obtain ⟨b1, hb1, hid, hsh⟩ := ih u hm
          exact ⟨b1, List.mem_cons_of_mem b hb1, hid, hsh⟩
      · rw [if_neg hc] at hu2
        rcases List.mem_cons.mp hu2 with he | hm
        · exact ⟨b, List.mem_cons_self b rest, by rw [he]; rfl, Or.inr ⟨_, he⟩⟩
        · obtain ⟨b1, hb1, hid, hsh⟩ := ih u hm
          exact ⟨b1, List.mem_cons_of_mem b hb1, hid, hsh⟩
    · have hu2 : u ∈ [bumpAttempt "n8n unreachable" b] := hu
      rcases List.mem_cons.mp hu2 with he | hm
      · exact ⟨b, List.mem_cons_self b rest, by rw [he]; rfl, Or.inr ⟨_, he⟩⟩
      · simp at hm
    · have hu2 : u ∈ bumpAttempt (pytake m 500) b :: attemptBatch post now rest := hu
      rcases List.mem_cons.mp hu2 with he | hm
      · exact ⟨b, List.mem_cons_self b rest, by rw [he]; rfl, Or.inr ⟨_, he⟩⟩
      · obtain ⟨b1, hb1, hid, hsh⟩ := ih u hm
        exact ⟨b1, List.mem_cons_of_mem b hb1, hid, hsh⟩

theorem selectBatch_mem {tbl : List OEvent} {b : OEvent} (hb : b ∈ selectBatch tbl) :
    b ∈ tbl ∧ drainEligible b = true := by
  rw [selectBatch] at hb
  have hb1 := List.mem_of_mem_take hb
  exact ⟨(List.mem_filter.mp hb1).1, (List.mem_filter.mp hb1).2⟩

theorem no_update_matches_ineligible {post : Nat → PostResult} {now : Int}
    {tbl : List OEvent} {e : OEvent}
    (hnd : (tbl.map (fun x => x.id)).Nodup) (he : e ∈ tbl) (hel : drainEligible e = false) :
    ∀ u ∈ attemptBatch post now (selectBatch tbl), u.id ≠ e.id := by
  intro u hu hid
  obtain ⟨b, hb, hbid, _⟩ := attemptBatch_elem post now (selectBatch tbl) u hu
  obtain ⟨hbtbl, hbel⟩ := selectBatch_mem hb
  have hbe : b = e := List.inj_on_of_nodup_map hnd hbtbl he (by rw [← hbid, hid])
  rw [hbe, hel] at hbel
  exact Bool.false_ne_true hbel

theorem drainRow_ineligible {post : Nat → PostResult} {now : Int}
    {tbl : List OEvent} {e : OEvent}
    (hnd : (tbl.map (fun x => x.id)).Nodup) (he : e ∈ tbl) (hel : drainEligible e = false)
    (hnp : e.status ≠ OStatus.pending) :
    drainRow post now tbl e = e := by
  rw [drainRow, foldl_replace_no_match _ _ (no_update_matches_ineligible hnd he hel), sweepRow]
  rw [if_neg]
  intro hcond
  rw [Bool.and_eq_true, beq_iff_eq] at hcond
  exact hnp hcond.1

theorem sweepRow_pending {e : OEvent} (h : (sweepRow e).status = OStatus.pending) :
    (sweepRow e).attempts < MAX_ATTEMPTS := by
  rw [sweepRow] at h ⊢
  by_cases hcond : (e.status == OStatus.pending && decide (MAX_ATTEMPTS ≤ e.attempts)) = true
  · rw [if_pos hcond] at h
    simp at h
  · rw [if_neg hcond] at h ⊢
    rw [Bool.and_eq_true, beq_iff_eq, decide_eq_true_eq] at hcond
    push_neg at hcond
    exact hcond h

theorem drainRow_delivered {post : Nat → PostResult} {now : Int}
    {tbl : List OEvent} {e : OEvent}
    (hnd : (tbl.map (fun x => x.id)).Nodup) (he : e ∈ tbl)
    (hst : e.status = OStatus.delivered) :
    drainRow post now tbl e = e ∧ e ∉ selectBatch tbl := by
  have hel : drainEligible e = false := by
    rw [drainEligible, hst]
    rfl
  refine ⟨drainRow_ineligible hnd he hel (by rw [hst]; intro h; exact OStatus.noConfusion h), ?_⟩
  intro hmem
  have hb := (selectBatch_mem hmem).2
  rw [hel] at hb
  exact Bool.false_ne_true hb

theorem sweepRow_id (x : OEvent) : (sweepRow x).id = x.id := by
  rw [sweepRow]
  split_ifs <;> rfl

theorem drainCycle_ids (post : Nat → PostResult) (now : Int) (tbl : List OEvent) :
    (drainCycle post now tbl).map (fun x => x.id) = tbl.map (fun x => x.id) := by
  by_cases h : (selectBatch tbl).isEmpty = true
  · rw [drainCycle_empty post now tbl h]
  · rw [drainCycle_eq_map post now tbl (Bool.of_not_eq_true h), List.map_map]
    apply List.map_congr_left
    intro e _
    show (drainRow post now tbl e).id = e.id
    rw [drainRow, sweepRow_id, foldl_replace_id]

theorem delivered_persists (now : Int) (posts : Nat → Nat → PostResult) :
    ∀ (n : Nat) (tbl : List OEvent), (tbl.map (fun x => x.id)).Nodup →
      ∀ e ∈ tbl, e.status = OStatus.delivered → e ∈ drainCycles posts now n tbl := by
  intro n
  induction n with
  | zero => intro tbl _ e he _; exact he
  | succ k ih =>
    intro tbl hnd e he hst
    have hnd1 : ((drainCycle (posts k) now tbl).map (fun x => x.id)).Nodup := by
      rw [drainCycle_ids]
      exact hnd
    have he1 : e ∈ drainCycle (posts k) now tbl := by
      by_cases hemp : (selectBatch tbl).isEmpty = true
      · rw [drainCycle_empty (posts k) now tbl hemp]
        exact he
      · rw [drainCycle_eq_map (posts k) now tbl (Bool.of_not_eq_true hemp)]
        have hrow := (@drainRow_delivered (posts k) now tbl e hnd he hst).1
        have hm := List.mem_map_of_mem (drainRow (posts k) now tbl) he
        rw [hrow] at hm
        exact hm
    exact ih (drainCycle (posts k) now tbl) hnd1 e he1 hst

/-- C2: outbox status transitions are monotone (`pending → delivered` or
`pending → failed` only; `delivered` and `failed` rows are untouched); a
delivered event is never selected for delivery again, in this cycle or any
later one; a cycle whose batch is empty leaves the table unchanged
(`if not rows: continue` skips even the sweep), and at the end of any cycle
that did attempt a batch every row still `pending` has attempts strictly
below the ceiling (so a row whose attempts reached the ceiling (5) during
the cycle was swept to `failed`, and one below the ceiling remains eligible
for another attempt). -/
theorem outbox_drain_monotone (post : Nat → PostResult) (now : Int) (tbl : List OEvent)
    (hnd : (tbl.map (fun x => x.id)).Nodup) :
    ((selectBatch tbl).isEmpty = true → drainCycle post now tbl = tbl)
    ∧ ((selectBatch tbl).isEmpty = false →
        drainCycle post now tbl = tbl.map (drainRow post now tbl))
    ∧ (∀ e ∈ tbl, e.status = OStatus.delivered →
        drainRow post now tbl e = e ∧ e ∉ selectBatch tbl)
    ∧ (∀ e ∈ tbl, e.status = OStatus.failed → drainRow post now tbl e = e)
    ∧ (∀ e ∈ tbl, (drainRow post now tbl e).status = e.status
        ∨ (e.status = OStatus.pending
            ∧ ((drainRow post now tbl e).status = OStatus.delivered
               ∨ (drainRow post now tbl e).status = OStatus.failed)))
    ∧ ((selectBatch tbl).isEmpty = false →
        ∀ e1 ∈ drainCycle post now tbl, e1.status = OStatus.pending →
          e1.attempts < MAX_ATTEMPTS ∧ drainEligible e1 = true)
    ∧ (∀ (posts : Nat → Nat → PostResult) (n : Nat) (e : OEvent), e ∈ tbl →
        e.status = OStatus.delivered → e ∈ drainCycles posts now n tbl) := by
  refine ⟨drainCycle_empty post now tbl, drainCycle_eq_map post now tbl,
    fun e he hst => drainRow_delivered hnd he hst,
    ?_, ?_, ?_, fun posts n e he hst => delivered_persists now posts n tbl hnd e he hst⟩
  · intro e he hst
    have hel : drainEligible e = false := by
      rw [drainEligible, hst]
      rfl
    exact drainRow_ineligible hnd he hel (by rw [hst]; intro h; exact OStatus.noConfusion h)
  · intro e he
    rcases foldl_replace_cases (attemptBatch post now (selectBatch tbl)) e with hfix | hmem
    · rw [drainRow, hfix, sweepRow]
      by_cases hcond : (e.status == OStatus.pending && decide (MAX_ATTEMPTS ≤ e.attempts)) = true
      · rw [if_pos hcond]
        rw [Bool.and_eq_true, beq_iff_eq] at hcond
        exact Or.inr ⟨hcond.1, Or.inr rfl⟩
      · rw [if_neg hcond]
        exact Or.inl rfl
    · obtain ⟨b, hb, hbid, hshape⟩ :=
        attemptBatch_elem post now (selectBatch tbl) _ hmem
      obtain ⟨hbtbl, hbel⟩ := selectBatch_mem hb
      have hbe : b = e :=
        List.inj_on_of_nodup_map hnd hbtbl he (by rw [← hbid, foldl_replace_id])
      subst hbe
      have hpend : b.status = OStatus.pending := by
        rw [drainEligible, Bool.and_eq_true, beq_iff_eq] at hbel
        exact hbel.1
      rcases hshape with h1 | ⟨err, h1⟩
      · right
        refine ⟨hpend, Or.inl ?_⟩
        rw [drainRow, h1, sweepRow, if_neg (by simp [markDelivered])]
        rfl
      · by_cases hc : MAX_ATTEMPTS ≤ b.attempts + 1
        · right
          refine ⟨hpend, Or.inr ?_⟩
          rw [drainRow, h1, sweepRow, if_pos (by simp [bumpAttempt, hpend, hc])]
        · left
          rw [drainRow, h1, sweepRow, if_neg (by simp [bumpAttempt, hpend, hc])]
          rw [bumpAttempt]
  · intro hne e1 he1 hst
    rw [drainCycle, if_neg (by simp [hne]), sweepFailed] at he1
    obtain ⟨x, _, hx⟩ := List.mem_map.mp he1
    have h1 : e1.attempts < MAX_ATTEMPTS := by
      rw [← hx] at hst ⊢
      exact sweepRow_pending hst
    refine ⟨h1, ?_⟩
    rw [drainEligible, hst]
    simpa using h1

/-! ## Concrete outbox tables for the C2 and C5 witnesses -/

/-- A fresh pending outbox row with the given id. -/
def freshEvent (i : Nat) : OEvent :=
  { id := i, event_type := "task.created", source := "hermes", payload := "p"
    webhook_url := "http://localhost:5678/webhook/hermes-events"
    status := OStatus.pending, attempts := 0, last_error := none, delivered_at := none }

/-- Witness table for C2: one delivered row, one pending row with four
attempts, one fresh pending row. -/
def tblC2 : List OEvent :=
  [{ freshEvent 1 with status := OStatus.delivered, delivered_at := some 10 },
   { freshEvent 2 with attempts := 4 },
   freshEvent 3]

/-- Witness for C2: the drain cycle over `tblC2` instantiated with an
erroring webhook; the batch is non-empty, so the per-row map form applies. -/
theorem outbox_drain_monotone_witness :
    (selectBatch tblC2).isEmpty = false
    ∧ drainCycle (fun _ => PostResult.exc "boom") 99 tblC2
        = tblC2.map (drainRow (fun _ => PostResult.exc "boom") 99 tblC2) :=
  ⟨by decide,
    (outbox_drain_monotone (fun _ => PostResult.exc "boom") 99 tblC2 (by decide)).2.1 (by decide)⟩

/-- C5: when the destination is unreachable (`httpx.ConnectError` on the
first POST of the batch), the drain cycle increments only the first batch
event's attempt count, records its error, aborts the rest of the batch, and
leaves every event pending (given the pre-cycle state has all rows pending
and comfortably below the attempt ceiling). -/
theorem drain_circuit_break (post : Nat → PostResult) (now : Int) (tbl : List OEvent)
    (b0 : OEvent) (rest : List OEvent)
    (hpost : ∀ i, post i = PostResult.connectError)
    (hatt : ∀ e ∈ tbl, e.status = OStatus.pending ∧ e.attempts + 1 < MAX_ATTEMPTS)
    (hbatch : selectBatch tbl = b0 :: rest) :
    drainCycle post now tbl
      = tbl.map (fun e => if e.id = b0.id then bumpAttempt "n8n unreachable" b0 else e)
    ∧ ∀ e1 ∈ drainCycle post now tbl, e1.status = OStatus.pending := by
  have hb0 : b0 ∈ tbl := (selectBatch_mem (hbatch ▸ List.mem_cons_self b0 rest)).1
  have hne : (selectBatch tbl).isEmpty = false := by rw [hbatch]; rfl
  have hups : attemptBatch post now (selectBatch tbl) = [bumpAttempt "n8n unreachable" b0] := by
    rw [hbatch, attemptBatch, hpost]
  have hmain : drainCycle post now tbl
      = tbl.map (fun e => if e.id = b0.id then bumpAttempt "n8n unreachable" b0 else e) := by
    rw [drainCycle, if_neg (by simp [hne]), hups]
    have happ : applyUpdates tbl [bumpAttempt "n8n unreachable" b0]
        = tbl.map (fun e => replaceByUpdate e (bumpAttempt "n8n unreachable" b0)) := rfl
    rw [happ, sweepFailed, List.map_map]
    apply List.map_congr_left
    intro e he
    show sweepRow (replaceByUpdate e (bumpAttempt "n8n unreachable" b0))
        = if e.id = b0.id then bumpAttempt "n8n unreachable" b0 else e
    rw [replaceByUpdate]
    have hbid : (bumpAttempt "n8n unreachable" b0).id = b0.id := rfl
    rw [hbid]
    by_cases hid : e.id = b0.id
    · rw [if_pos hid, sweepRow,
        if_neg (by simp [bumpAttempt, (hatt b0 hb0).1, Nat.not_le.mpr (hatt b0 hb0).2])]
    · rw [if_neg hid, sweepRow, if_neg ?_]
      rw [Bool.and_eq_true, decide_eq_true_eq]
      rintro ⟨_, hge⟩
      exact absurd hge (by have h2 := (hatt e he).2; omega)
  refine ⟨hmain, ?_⟩
  intro e1 he1
  rw [hmain] at he1
  obtain ⟨x, hx, hxe⟩ := List.mem_map.mp he1
  rw [← hxe]
  by_cases hid : x.id = b0.id
  · rw [if_pos hid]
    exact (hatt b0 hb0).1
  · rw [if_neg hid]
    exact (hatt x hx).1

/-- Witness table for C5: three fresh pending events. -/
def tblC5 : List OEvent := [freshEvent 1, freshEvent 2, freshEvent 3]

/-- Witness for C5: with the engine unreachable, one cycle over three fresh
events bumps only the first event and leaves all three pending. -/
theorem drain_circuit_break_witness :
    drainCycle (fun _ => PostResult.connectError) 99 tblC5
      = tblC5.map (fun e =>
          if e.id = (freshEvent 1).id then bumpAttempt "n8n unreachable" (freshEvent 1) else e) :=
  (drain_circuit_break (fun _ => PostResult.connectError) 99 tblC5 (freshEvent 1)
    [freshEvent 2, freshEvent 3] (fun _ => rfl) (by decide) (by decide)).1

/-! ## Claim theorems: C10 and C8 -/

/-- C10: `get_or_create_session` is total and deterministic — for every
store state (down, erroring, healthy) and table it returns `Except.ok` with
exactly the string `hermes-{caller_id}-{target}-{purpose}`. -/
theorem get_or_create_session_total :
    ∀ (st : StoreState) (tbl : SessionTable) (c t ty pu h : String),
      ∃ tbl1, get_or_create_session st tbl c t ty pu h
        = Except.ok ("hermes-" ++ c ++ "-" ++ t ++ "-" ++ pu, tbl1) := by
  intro st tbl c t ty pu h
  cases st with
  | down => exact ⟨tbl, rfl⟩
  | failing => exact ⟨tbl, rfl⟩
  | healthy =>
    rcases hl : alookup tbl (sessionKey c t pu) with _ | row
    · exact ⟨tbl ++ [(sessionKey c t pu, newSessRow c t ty h)],
        by rw [get_or_create_session, hl]; rfl⟩
    · exact ⟨bumpSession tbl (sessionKey c t pu),
        by rw [get_or_create_session, hl]; rfl⟩

/-- C8: the best-effort side effects never propagate an error into the
primary call path: `emit_event` and `audit_log` return `Except.ok` for every
store state; `emit_event` drops the event when the store is down or the
write errors; a failed Postgres audit write still lands in the append-only
JSONL backup when the filesystem allows. -/
theorem side_effects_never_raise :
    (∀ (p : Policy) (n8nBase : String) (st : StoreState) (tbl : List OEvent)
        (fid : Nat) (et src pl : String),
      (∃ tbl1, emit_event p n8nBase st tbl fid et src pl = Except.ok tbl1)
      ∧ (st = StoreState.down → emit_event p n8nBase st tbl fid et src pl = Except.ok tbl)
      ∧ (st = StoreState.failing → emit_event p n8nBase st tbl fid et src pl = Except.ok tbl))
    ∧ (∀ (p : Policy) (st : StoreState) (fsOk : Bool)
        (pgLog jsonlLog : List AuditRow) (row : AuditRow),
      (∃ out, audit_log p st fsOk pgLog jsonlLog row = Except.ok out)
      ∧ (st ≠ StoreState.healthy → fsOk = true → p.audit_log_to_jsonl.getD true = true →
          ∃ jrow, audit_log p st fsOk pgLog jsonlLog row
            = Except.ok (pgLog, jsonlLog ++ [jrow]))) := by
  constructor
  · intro p n8nBase st tbl fid et src pl
    cases st with
    | down => exact ⟨⟨tbl, rfl⟩, fun _ => rfl, fun h => absurd h (by intro h; cases h)⟩
    | failing => exact ⟨⟨tbl, rfl⟩, fun h => absurd h (by intro h; cases h), fun _ => rfl⟩
    | healthy =>
      refine ⟨⟨_, rfl⟩, fun h => absurd h (by intro h; cases h),
        fun h => absurd h (by intro h; cases h)⟩
  · intro p st fsOk pgLog jsonlLog row
    constructor
    · cases st <;> (simp only [audit_log, pgWrite]; split_ifs <;> exact ⟨_, rfl⟩)
    · intro hnst hfs hjs
      refine ⟨{ row with
          request_summary := truncOpt 200 row.request_summary
          response_summary := truncOpt 200 row.response_summary }, ?_⟩
      cases st with
      | down =>
        simp only [audit_log, pgWrite]
        rw [if_pos hjs, if_pos hfs]
      | failing =>
        simp only [audit_log, pgWrite]
        rw [if_pos hjs, if_pos hfs]
      | healthy => exact absurd rfl hnst

/-! ## Session resolve under concurrency (C3) -/

theorem bumpSession_keys (tbl : SessionTable) (sid : String) :
    (bumpSession tbl sid).map Prod.fst = tbl.map Prod.fst := by
  induction tbl with
  | nil => rfl
  | cons kv rest ih =>
    obtain ⟨k, v⟩ := kv
    by_cases h : k = sid
    · simp [bumpSession, h]
    · simp [bumpSession, h, ih]

theorem alookup_none_iff {β : Type} (l : List (String × β)) (k : String) :
    alookup l k = none ↔ k ∉ l.map Prod.fst := by
  induction l with
  | nil => simp [alookup]
  | cons kv rest ih =>
    obtain ⟨k1, v⟩ := kv
    by_cases h : k1 = k
    · subst h
      simp [alookup]
    · simp only [alookup, h, if_false, List.map_cons, List.mem_cons]
      rw [ih]
      constructor
      · rintro hr (he | hm)
        · exact h he.symm
        · exact hr hm
      · intro hr hm
        exact hr (Or.inr hm)

theorem resolveWrite_keys_nodup {tbl : SessionTable} {sid : String} {saw : Bool}
    {c t ty hdl : String} (hnd : (tbl.map Prod.fst).Nodup) :
    ((resolveWrite tbl sid saw c t ty hdl).map Prod.fst).Nodup := by
  rw [resolveWrite]
  by_cases hs : saw = true
  · rw [if_pos hs, bumpSession_keys]
    exact hnd
  · rw [if_neg hs]
    by_cases hl : (alookup tbl sid).isSome
    · rw [if_pos hl]
      exact hnd
    · rw [if_neg hl]
      have hnone : alookup tbl sid = none := by
        cases halo : alookup tbl sid with
        | none => rfl
        | some v => rw [halo] at hl; simp at hl
      have hmem := (alookup_none_iff tbl sid).mp hnone
      rw [List.map_append, List.nodup_append]
      refine ⟨hnd, by simp, ?_⟩
      intro x hx hx1
      simp only [List.map_cons, List.map_nil, List.mem_singleton] at hx1
      exact hmem (hx1 ▸ hx)

theorem resolveStep_nodup (c t ty pu hA hB : String) (s : TwoResolve) (who : Bool)
    (hnd : (s.tbl.map Prod.fst).Nodup) :
    (((resolveStep c t ty pu hA hB s who).tbl).map Prod.fst).Nodup := by
  rw [resolveStep]
  cases who with
  | true =>
    simp only [if_pos rfl]
    cases s.pcA with
    | beforeSelect => exact hnd
    | beforeWrite saw => exact resolveWrite_keys_nodup hnd
    | finished => exact hnd
  | false =>
    simp only [Bool.false_eq_true, if_neg, ite_false]
    cases s.pcB with
    | beforeSelect => exact hnd
    | beforeWrite saw => exact resolveWrite_keys_nodup hnd
    | finished => exact hnd

theorem resolveRun_nodup (c t ty pu hA hB : String) :
    ∀ (sched : List Bool) (s : TwoResolve), (s.tbl.map Prod.fst).Nodup →
      (((resolveRun c t ty pu hA hB s sched).tbl).map Prod.fst).Nodup := by
  intro sched
  induction sched with
  | nil => intro s hnd; exact hnd
  | cons w ws ih =>
    intro s hnd
    exact ih (resolveStep c t ty pu hA hB s w) (resolveStep_nodup c t ty pu hA hB s w hnd)

theorem filter_key_nil {β : Type} (l : List (String × β)) (k : String)
    (h : k ∉ l.map Prod.fst) : l.filter (fun kv => kv.1 == k) = [] := by
  induction l with
  | nil => rfl
  | cons kv rest ih =>
    obtain ⟨k1, v⟩ := kv
    simp only [List.map_cons, List.mem_cons] at h
    push_neg at h
    have h1 : ((k1, v).1 == k) = false := beq_eq_false_iff_ne.mpr (fun e => h.1 e.symm)
    rw [List.filter_cons, h1]
    simp only [Bool.false_eq_true, if_neg, ite_false]
    exact ih (by simpa using h.2)

theorem filter_key_le_one {β : Type} (l : List (String × β)) (k : String)
    (hnd : (l.map Prod.fst).Nodup) : (l.filter (fun kv => kv.1 == k)).length ≤ 1 := by
  induction l with
  | nil => simp
  | cons kv rest ih =>
    obtain ⟨k1, v⟩ := kv
    simp only [List.map_cons, List.nodup_cons] at hnd
    by_cases h : k1 = k
    · subst h
      rw [List.filter_cons]
      simp only [beq_self_eq_true, if_pos]
      rw [filter_key_nil rest k1 hnd.1]
      simp
    · have h1 : ((k1, v).1 == k) = false := beq_eq_false_iff_ne.mpr h
      rw [List.filter_cons, h1]
      simp only [Bool.false_eq_true, if_neg, ite_false]
      exact ih hnd.2

/-- C3 amended: `get_or_create_session` is a SELECT followed by an
INSERT-or-UPDATE, guarded by the primary key: under every interleaving of
two concurrent resolves for the same (caller, target, purpose) triple the
table keeps at most one session row for the deterministic key (the losing
INSERT raises on the key and is rolled back), with the stored conversation
handle the one minted by the successful creator at insert time. -/
theorem resolve_concurrent_no_duplicate_sessions
    (caller target stype purpose hA hB : String) (sched : List Bool) (tbl0 : SessionTable)
    (hnd : (tbl0.map Prod.fst).Nodup) :
    (((resolveRun caller target stype purpose hA hB
        ⟨tbl0, RPc.beforeSelect, RPc.beforeSelect⟩ sched).tbl).map Prod.fst).Nodup
    ∧ ((resolveRun caller target stype purpose hA hB
        ⟨tbl0, RPc.beforeSelect, RPc.beforeSelect⟩ sched).tbl.filter
          (fun kv => kv.1 == sessionKey caller target purpose)).length ≤ 1 := by
  have h1 := resolveRun_nodup caller target stype purpose hA hB sched
    ⟨tbl0, RPc.beforeSelect, RPc.beforeSelect⟩ hnd
  exact ⟨h1, filter_key_le_one _ _ h1⟩

/-- Witness for the amended C3: the race schedule select-A, select-B,
write-A, write-B over an empty table keeps a single session row. -/
theorem resolve_concurrent_no_duplicate_sessions_witness :
    ((resolveRun "agentA" "claude" "claude" "general" "hA" "hB"
        ⟨[], RPc.beforeSelect, RPc.beforeSelect⟩ [true, false, true, false]).tbl.filter
          (fun kv => kv.1 == sessionKey "agentA" "claude" "general")).length ≤ 1 :=
  (resolve_concurrent_no_duplicate_sessions "agentA" "claude" "claude" "general" "hA" "hB"
    [true, false, true, false] [] (by decide)).2

/-- C3 counterexample: resolve is NOT an atomic upsert.  Under the
interleaving select-A, select-B, write-A, write-B on a fresh triple, the
source's read-then-write execution leaves `message_count = 0` (thread B's
INSERT hits the primary key and its update is lost), while two sequential
atomic upserts — the spec's semantics — leave `message_count = 1`; the two
final tables differ. -/
theorem resolve_not_atomic_upsert :
    (resolveRun "agentA" "claude" "claude" "general" "hA" "hB"
        ⟨[], RPc.beforeSelect, RPc.beforeSelect⟩ [true, false, true, false]).tbl
      = [("hermes-agentA-claude-general",
          { caller_id := "agentA", target := "claude", session_type := "claude"
            claude_session_id := some "hA", message_count := 0 })]
    ∧ (atomicUpsertResolve (atomicUpsertResolve [] "agentA" "claude" "claude" "general" "hA").2
        "agentA" "claude" "claude" "general" "hB").2
      = [("hermes-agentA-claude-general",
          { caller_id := "agentA", target := "claude", session_type := "claude"
            claude_session_id := some "hA", message_count := 1 })]
    ∧ (resolveRun "agentA" "claude" "claude" "general" "hA" "hB"
        ⟨[], RPc.beforeSelect, RPc.beforeSelect⟩ [true, false, true, false]).tbl
      ≠ (atomicUpsertResolve (atomicUpsertResolve [] "agentA" "claude" "claude" "general" "hA").2
        "agentA" "claude" "claude" "general" "hB").2 :=
  ⟨by decide, by decide, by decide⟩

/-! ## CLI output recovery lemmas (C4) -/

theorem extractFromResultDict_elems (rfs : List (String × Json)) (elems : List Json)
    (hie : iterElems ((jlookup rfs "payloads").getD (Json.arr [])) = some elems) :
    extractFromResultDict rfs =
      (if (elems.filterMap textFragOf).isEmpty = true then
        Except.ok (pythonStr
          ((jlookup rfs "text").getD ((jlookup rfs "message").getD (Json.str "No response"))))
      else
        match (elems.filterMap textFragOf).mapM asStr with
        | some strs => Except.ok (joinWith "\n" strs)
        | none => Except.error "TypeError: sequence item is not a str") := by
  rw [extractFromResultDict, hie]

theorem extract_matches_safe (rfs : List (String × Json)) :
    (match extractFromResultDict rfs with
      | Except.ok _ => true
      | Except.error _ => false) = resultSafe (Json.obj rfs) := by
  rcases hie : iterElems ((jlookup rfs "payloads").getD (Json.arr [])) with _ | elems
  · have h1 : extractFromResultDict rfs = Except.error "TypeError: payloads is not iterable" := by
      rw [extractFromResultDict, hie]
    have h2 : resultSafe (Json.obj rfs) = false := by
      rw [resultSafe, hie]
    rw [h1, h2]
  · have hsafe : resultSafe (Json.obj rfs)
        = ((elems.filterMap textFragOf).isEmpty
            || ((elems.filterMap textFragOf).mapM asStr).isSome) := by
      rw [resultSafe, hie]
    by_cases hemp : (elems.filterMap textFragOf).isEmpty = true
    · have hex : extractFromResultDict rfs = Except.ok (pythonStr
          ((jlookup rfs "text").getD ((jlookup rfs "message").getD (Json.str "No response")))) := by
        rw [extractFromResultDict_elems rfs elems hie, if_pos hemp]
      rw [hex, hsafe, hemp]
      rfl
    · rcases hms : (elems.filterMap textFragOf).mapM asStr with _ | strs
      · have hex : extractFromResultDict rfs
            = Except.error "TypeError: sequence item is not a str" := by
          rw [extractFromResultDict_elems rfs elems hie, if_neg hemp, hms]
        rw [hex, hsafe, hms]
        simp [hemp]
      · have hex : extractFromResultDict rfs = Except.ok (joinWith "\n" strs) := by
          rw [extractFromResultDict_elems rfs elems hie, if_neg hemp, hms]
        rw [hex, hsafe, hms]
        simp

/-- C4 amended: on exit code 0 the recovery chain returns a text response
exactly when the stdout shape is safe — no JSON parses (fall back to the
trimmed raw output truncated to 2000, cost zero), or the parsed document is
an object whose `result` value the extraction ladder handles; a parsed
non-object document (or a non-iterable `payloads`, or a non-string text
fragment) raises past the `(JSONDecodeError, KeyError)` handler and the
invocation is reported failed.  An absent `cost_usd` reads as cost zero, and
the scenario stdout `[plugin] loaded` + `&#123;"result":"hello"&#125;`
extracts exactly `hello`. -/
theorem cli_recovery_amended :
    (∀ s : String, (parse_claude_stdout s).isOk = stdoutSafe s)
    ∧ (∀ s : String, json_loads (extract_json_str (pstrip s)) = none →
        parse_claude_stdout s = ParseOutcome.ok (pytake (pstrip s) 2000) (Json.num 0))
    ∧ (∀ (s : String) (fs : List (String × Json)) (r : String) (c1 : Json),
        json_loads (extract_json_str (pstrip s)) = some (Json.obj fs) →
        jlookup fs "cost_usd" = none →
        parse_claude_stdout s = ParseOutcome.ok r c1 → c1 = Json.num 0)
    ∧ parse_claude_stdout "[plugin] loaded\n\x7b\"result\":\"hello\"\x7d\n"
        = ParseOutcome.ok "hello" (Json.num 0) := by
  refine ⟨?_, ?_, ?_, by rfl⟩
  · intro s
    rw [parse_claude_stdout, stdoutSafe]
    rcases h : json_loads (extract_json_str (pstrip s)) with _ | data
    · rfl
    · cases data with
      | obj fs =>
        have hrec : recover_from_json (some (Json.obj fs)) (pstrip s)
            (extract_json_str (pstrip s))
            = recover_result ((jlookup fs "result").getD
                (Json.str (extract_json_str (pstrip s))))
              ((jlookup fs "cost_usd").getD (Json.num 0)) := rfl
        have hsafe : safe_from_json (some (Json.obj fs)) (extract_json_str (pstrip s))
            = resultSafe ((jlookup fs "result").getD
                (Json.str (extract_json_str (pstrip s)))) := rfl
        rw [hrec, hsafe]
        rcases hres : (jlookup fs "result").getD (Json.str (extract_json_str (pstrip s)))
          with _ | b | q | st | arr | rfs
        · rfl
        · rfl
        · rfl
        · rfl
        · rfl
        · rw [recover_result]
          rcases hex : extractFromResultDict rfs with m | t
          · have h1 := extract_matches_safe rfs
            rw [hex] at h1
            rw [← h1]
            rfl
          · have h1 := extract_matches_safe rfs
            rw [hex] at h1
            rw [← h1]
            rfl
      | null => rfl
      | bool b => rfl
      | num q => rfl
      | str st => rfl
      | arr xs => rfl
  · intro s h
    rw [parse_claude_stdout, h]
    rfl
  · intro s fs r c1 hloads hcost hok
    rw [parse_claude_stdout, hloads] at hok
    have hok2 : recover_result ((jlookup fs "result").getD
          (Json.str (extract_json_str (pstrip s)))) (Json.num 0)
        = ParseOutcome.ok r c1 := by
      have hc : (jlookup fs "cost_usd").getD (Json.num 0) = Json.num 0 := by
        rw [hcost]
        rfl
      rw [← hc]
      exact hok
    rcases hres : (jlookup fs "result").getD (Json.str (extract_json_str (pstrip s)))
      with _ | b | q | st | arr | rfs
    all_goals rw [hres] at hok2
    · cases hok2; rfl
    · cases hok2; rfl
    · cases hok2; rfl
    · cases hok2; rfl
    · cases hok2; rfl
    · rw [recover_result] at hok2
      rcases hex : extractFromResultDict rfs with m | t
      all_goals rw [hex] at hok2
      · cases hok2
      · cases hok2; rfl

/-- C4 counterexample: a run that exits 0 with stdout `3` — valid JSON that
is not an object — makes the recovery chain raise `AttributeError` past the
`(JSONDecodeError, KeyError)` handler: no text response is returned and the
invocation is reported failed, refuting "returns a text response and never
fails, whatever stdout contains". -/
theorem cli_recovery_counterexample :
    parse_claude_stdout "3" = ParseOutcome.pyError "AttributeError: .get on a non-dict"
    ∧ (invoke_claude (some "h1") StoreState.healthy "fresh" "msg" "sid" false 120
        (ProcOutcome.exits 0 "3" "")).2.response = none := by
  constructor
  · rfl
  · rfl

/-! ## CLI invocation timeout path (C6) -/

/-- C6 (code_bug evidence): when the subprocess outlives the wall-clock
timeout, `invoke_claude` returns the Timeout error and performs no session
write — a session with a stored handle keeps it, so a later call resumes
with the same handle — but the effect trace of the timeout path is exactly
the spawn, with no `proc.kill()`: the hung subprocess is left running,
contrary to the claim and the specification. -/
theorem invoke_timeout_no_kill :
    (invoke_claude (some "handle-1") StoreState.healthy "fresh" "msg" "sid-1" false 120
        ProcOutcome.hangs).1
      = [IEffect.spawn (claudeCmd "handle-1" "msg" false)]
    ∧ (invoke_claude (some "handle-1") StoreState.healthy "fresh" "msg" "sid-1" false 120
        ProcOutcome.hangs).2.error = some "Timeout after 120s"
    ∧ (invoke_claude (some "handle-1") StoreState.healthy "fresh" "msg" "sid-1" false 120
        ProcOutcome.hangs).2.response = none
    ∧ (invoke_claude (some "handle-1") StoreState.healthy "fresh" "msg" "sid-1" false 120
        ProcOutcome.hangs).2.claude_session_id = "handle-1"
    ∧ (∀ (stored : Option String) (st : StoreState) (f m sid : String) (r : Bool) (tS : Nat),
        IEffect.killProc ∉ (invoke_claude stored st f m sid r tS ProcOutcome.hangs).1) := by
  refine ⟨by rfl, by rfl, by rfl, by rfl, ?_⟩
  intro stored st f m sid r tS
  rcases stored with _ | h
  · cases st with
    | down =>
      show IEffect.killProc ∉ [] ++ [IEffect.spawn (claudeCmd f m r)]
      simp
    | failing =>
      show IEffect.killProc ∉ [] ++ [IEffect.spawn (claudeCmd f m r)]
      simp
    | healthy =>
      show IEffect.killProc ∉ [IEffect.dbSetHandle sid f] ++ [IEffect.spawn (claudeCmd f m r)]
      simp
  · show IEffect.killProc ∉ [] ++ [IEffect.spawn (claudeCmd h m r)]
    simp

/-! ## Remaining witnesses -/

/-- Witness for C4: the no-JSON fallback instantiated at a concrete noisy
stdout. -/
theorem cli_recovery_amended_witness :
    parse_claude_stdout "no json here"
      = ParseOutcome.ok (pytake (pstrip "no json here") 2000) (Json.num 0) :=
  cli_recovery_amended.2.1 "no json here" rfl

/-- Witness for C7: the iff instantiated at the scenario policy at 02:00
with a normal-priority non-exempt caller. -/
theorem quiet_hours_denial_iff_witness :
    (enforce_policy scnPolicy [] 2 "c1" "/claude/ask" "normal" 0).1 = some quietMsg :=
  (quiet_hours_denial_iff.1 scnPolicy [] 2 "c1" "/claude/ask" "normal" 0).mpr
    ⟨by decide, by decide, by decide, by decide⟩

/-- Witness for C8: emitting with the durable store down drops the event and
returns normally. -/
theorem side_effects_never_raise_witness :
    emit_event scnPolicy "http://localhost:5678" StoreState.down [] 1 "task.created" "hermes" "p"
      = Except.ok [] :=
  (side_effects_never_raise.1 scnPolicy "http://localhost:5678" StoreState.down []
    1 "task.created" "hermes" "p").2.1 rfl

end Hermes
